import Mathlib

/-!
Verification of the Omnivore search-query compiler
(`packages/api/src/services/library_item.ts`).

The development shallowly embeds `buildQuery` (with its inner
`serialize`, `serializeTagExpression`, `serializeImplicitField` and
`escapeQueryWithParameters` closures), `getColumnName`, `handleNoCase`,
the sort finalization step of `searchLibraryItems`, and the
`AddLabels` branch of `batchUpdateLibraryItems`.

Embedding conventions:
- The TypeScript closures mutate three shared arrays (`parameters`,
  `selects`, `orders`); here they are threaded explicitly as a `QState`.
- Thrown `Error`s become `Except SerializeError`.
- JavaScript string helpers (`toLowerCase`, `split`, `replace`,
  `parseInt`, the comparator regex) are modelled by executable Lean
  functions (`jsToLower`, `jsSplit`, ...) with JS semantics on the
  ASCII inputs the compiler manipulates.
- Calls into luxon (`DateTime.local().startOf(...)`) and the JS `Date`
  constructor are ambient-time external-library calls; they are
  abstracted as a `DateEnv` record of instants (epoch milliseconds as
  `Int`) and a date parser, passed to the compiler.
- The liqe AST (`Tag`, `LogicalExpression`, `UnaryOperator`,
  `ParenthesizedExpression`, plus the catch-all branch of `serialize`)
  is the inductive `LiqeQuery`. The logical operator is kept as the
  `String` the code inspects; the liqe type itself only produces
  `"AND"`/`"OR"`, which well-formedness hypotheses record where needed.
-/

namespace Omnivore

/-- Value bound to a query parameter: string, string list (the
`includes` id list), JS number (`none` models `NaN`, from `parseInt`),
or a `Date` instant in epoch milliseconds. -/
inductive QValue where
  | vstr (s : String)
  | vlist (l : List String)
  | vnum (n : Option Int)
  | vdate (t : Int)
deriving DecidableEq, Repr

/-- The `SortOrder` enum (`ASC`/`DESC`). -/
inductive SortOrder where
  | ascending
  | descending
deriving DecidableEq, Repr

/-- The `Sort` interface: `{ by, order?, nulls? }`. `by` is a Lean
keyword, hence the field name `by_`. -/
structure SortKey where
  by_ : String
  order : Option SortOrder
  nulls : Option String
deriving DecidableEq, Repr

/-- The `Select` interface: `{ column, alias? }`; `alias` is a Lean
keyword, hence the field name `alias_`. -/
structure Select where
  column : String
  alias_ : Option String
deriving DecidableEq, Repr

/-- The three arrays mutated by the `buildQuery` closures: the
parameter table (a list of pushed parameter objects, each an
association list of name/value pairs), the extra select columns, and
the accumulated sort keys. -/
structure QState where
  parameters : List (List (String × QValue))
  selects : List Select
  orders : List SortKey
deriving DecidableEq, Repr

/-- The `Error`s thrown during serialization, one constructor per
`throw new Error(...)` site. -/
inductive SerializeError where
  | expectedLiteral
  | expectedTag
  | unexpectedKeyword (v : String)
  | unexpectedField (f : String)
  | invalidStartDate
  | invalidEndDate
  | expectedIds
  | expectedOperator
  | unexpectedOperator
deriving DecidableEq, Repr

/-- A liqe expression token attached to a tag: a `LiteralExpression`
(whose `value?.toString()` is modelled as `Option String`) or any
other expression kind (e.g. `EmptyExpression`). -/
inductive ExpressionToken where
  | literalExpression (value : Option String)
  | emptyExpression
deriving DecidableEq, Repr

/-- A liqe field reference: implicit (bare free text) or named. -/
inductive FieldToken where
  | implicitField
  | namedField (name : String)
deriving DecidableEq, Repr

/-- The liqe query AST as inspected by `serialize`: tags, logical
expressions, unary NOT, parenthesized groups, and `otherNode` for any
other token kind (for which `serialize` returns `null`). -/
inductive LiqeQuery where
  | tag (field : FieldToken) (expression : ExpressionToken)
  | logicalExpression (operator : String) (left right : LiqeQuery)
  | unaryOperator (operand : LiqeQuery)
  | parenthesizedExpression (expression : LiqeQuery)
  | otherNode
deriving DecidableEq, Repr

/-- Ambient time and date parsing, abstracting luxon
`DateTime.local()` and the JS `Date` constructor. Instants are epoch
milliseconds; `parseDate s = none` models `isNaN(new Date(s))`. -/
structure DateEnv where
  now : Int
  startOfToday : Int
  startOfYesterday : Int
  endOfYesterday : Int
  startOfWeek : Int
  startOfMonth : Int
  parseDate : String → Option Int

/-- JS `String.prototype.toLowerCase` (character-wise basic-latin
lowering, which is what the compiler relies on). -/
def jsToLower (s : String) : String :=
  String.mk (s.data.map Char.toLower)

/-- JS falsiness of a `string | null` value: `null` and the empty
string are falsy. -/
def jsFalsy : Option String → Bool
  | none => true
  | some s => s == ("")

/-- Fuel-driven worker for `jsSplit`; the fuel is the input length, so
it never runs out. -/
def jsSplitAux (sep : List Char) : Nat → List Char → List Char → List (List Char)
  | _, [], acc => [acc.reverse]
  | 0, c :: rest, acc => [acc.reverse ++ c :: rest]
  | fuel + 1, c :: rest, acc =>
    if sep.isPrefixOf (c :: rest) then
      acc.reverse :: jsSplitAux sep fuel (List.drop sep.length (c :: rest)) []
    else
      jsSplitAux sep fuel rest (c :: acc)

/-- JS `String.prototype.split` with a non-empty string separator
(`"".split(",") = [""]`, separators at the edges produce empty
fields). -/
def jsSplit (sep s : String) : List String :=
  (jsSplitAux sep.data s.data.length s.data []).map String.mk

/-- JS `label.replace(/\*/g, "%")`. -/
def replaceStars (s : String) : String :=
  String.mk (s.data.map (fun c => if c = '*' then '%' else c))

/-- Decimal value of a digit list (used to decode parameter indices in
the uniqueness proof). -/
def digitVal (cs : List Char) : Nat :=
  cs.foldl (fun a c => 10 * a + (c.toNat - 48)) 0

/-- JS `parseInt(s, 10)`: skip leading whitespace, optional sign,
longest digit run; `none` models `NaN`. -/
def jsParseInt (s : String) : Option Int :=
  let cs := s.data.dropWhile (fun c => c = ' ' || c = '\t' || c = '\n' || c = '\r')
  let signAndRest : Bool × List Char :=
    match cs with
    | '-' :: rest => (true, rest)
    | '+' :: rest => (false, rest)
    | _ => (false, cs)
  let ds := signAndRest.2.takeWhile (fun c => c.isDigit)
  if ds.isEmpty then none
  else if signAndRest.1 then some (-(digitVal ds : Int)) else some (digitVal ds)

/-- The regex match `value.match(/([<>]=?)/)` together with the
corresponding `value.replace(/([<>]=?/, "")`: locate the first `<` or
`>` (optionally followed by `=`), returning the characters before the
match, the matched operator, and the characters after it. -/
def findComparator : List Char → Option (List Char × List Char × List Char)
  | [] => none
  | c :: rest =>
    if c = '<' ∨ c = '>' then
      match rest with
      | d :: rest2 => if d = '=' then some ([], [c, '='], rest2) else some ([], [c], d :: rest2)
      | [] => some ([], [c], [])
    else
      match findComparator rest with
      | none => none
      | some (bef, op, aft) => some (c :: bef, op, aft)

/-- The parameter/alias naming template `` `${pfx}_${parameters.length}` ``. -/
def mkName (pfx : String) (n : Nat) : String :=
  pfx ++ ("_") ++ Nat.repr n

/-- Model of `getColumnName`: field keyword to storage column, throwing on
unknown keywords. -/
def getColumnName (field : String) : Except SerializeError String :=
  let lowerCaseField := jsToLower field
  if lowerCaseField = ("language") then .ok ("item_language")
  else if lowerCaseField = ("subscription") ∨ lowerCaseField = ("rss") then .ok ("subscription")
  else if lowerCaseField = ("site") then .ok ("site_name")
  else if lowerCaseField = ("wordscount") then .ok ("word_count")
  else if lowerCaseField = ("readposition") then .ok ("reading_progress_bottom_percent")
  else if lowerCaseField = ("saved") ∨ lowerCaseField = ("read") ∨ lowerCaseField = ("updated") ∨ lowerCaseField = ("published") then .ok (lowerCaseField ++ ("_at"))
  else if lowerCaseField = ("author") ∨ lowerCaseField = ("title") ∨ lowerCaseField = ("description") ∨ lowerCaseField = ("note") then .ok lowerCaseField
  else if lowerCaseField = ("highlight") then .ok ("highlight_annotations")
  else if lowerCaseField = ("label") then .ok ("label_names")
  else .error (.unexpectedField field)

/-- Model of `handleNoCase`: match the value against `highlight(s)`, `label(s)`,
`subscription(s)` (case-insensitive) and emit the is-null-or-empty
clause; otherwise throw `Unexpected keyword`. -/
def handleNoCase (value : String) : Except SerializeError String :=
  let lv := jsToLower value
  match (["highlight", "label", "subscription"].find? (fun k => lv == k || lv == k ++ ("s"))) with
  | some matchingKeyword =>
    match getColumnName matchingKeyword with
    | .error e => .error e
    | .ok column =>
      .ok (("(library_item.") ++ column ++ (" IS NULL OR library_item.") ++ column ++ (" = \x27\x7b\x7d\x27)"))
  | none => .error (.unexpectedKeyword value)

/-- Append a parameter object to the parameter table (the push inside
`escapeQueryWithParameters`). -/
def pushParam (st : QState) (obj : List (String × QValue)) : QState :=
  ⟨st.parameters ++ [obj], st.selects, st.orders⟩

/-- Append a select column (`selects.push`). -/
def pushSelect (st : QState) (sel : Select) : QState :=
  ⟨st.parameters, st.selects ++ [sel], st.orders⟩

/-- Append a sort key (`orders.push`). -/
def pushOrder (st : QState) (ord : SortKey) : QState :=
  ⟨st.parameters, st.selects, st.orders ++ [ord]⟩

/-- Model of `escapeQueryWithParameters`: record the parameter object and return
the clause unchanged. -/
def escapeQueryWithParameters (st : QState) (query : String) (parameter : List (String × QValue)) : String × QState :=
  (query, pushParam st parameter)

/-- Model of `serializeImplicitField`: free-text search. Empty or absent
literals yield `null`; otherwise a rank select column and a descending
rank sort are pushed and a full-text predicate is returned with the
literal bound as one parameter. -/
def serializeImplicitField (expression : ExpressionToken) (st : QState) :
    Except SerializeError (Option String × QState) :=
  match expression with
  | .emptyExpression => .error .expectedLiteral
  | .literalExpression value? =>
    match value? with
    | none => .ok (none, st)
    | some value =>
      if value = ("") then .ok (none, st)
      else
        let n := st.parameters.length
        let param := mkName ("implicit_field") n
        let alias_ := mkName ("rank") n
        let st1 := pushSelect st ⟨("ts_rank_cd(library_item.search_tsv, websearch_to_tsquery(\x27english\x27, :") ++ param ++ ("))"), some alias_⟩
        let st2 := pushOrder st1 ⟨alias_, some SortOrder.descending, none⟩
        let r := escapeQueryWithParameters st2 (("websearch_to_tsquery(\x27english\x27, :") ++ param ++ (") @@ library_item.search_tsv")) [(param, QValue.vstr value)]
        .ok (some r.1, r.2)

/-- The per-element body of the `label` case: one parameter per
comma-separated label, a pattern-match clause when the label contains
`*`, an exact membership clause otherwise. -/
def serializeLabels : List String → QState → (List String × QState)
  | [], st => ([], st)
  | label :: rest, st =>
    let param := mkName ("label") st.parameters.length
    let r :=
      if label.data.contains '*' then
        escapeQueryWithParameters st (("exists (select 1 from unnest(array_cat(library_item.label_names, library_item.highlight_labels)::text[]) as label where label ILIKE :") ++ param) [(param, QValue.vstr (replaceStars label))]
      else
        escapeQueryWithParameters st ((":") ++ param ++ (" = ANY(lower(array_cat(library_item.label_names, library_item.highlight_labels)::text)::text[])")) [(param, QValue.vstr label)]
    let rs := serializeLabels rest r.2
    (r.1 :: rs.1, rs.2)

/-- The `SortBy` enum values, in declaration order. -/
def sortByValues : List String :=
  [("saved"), ("updated"), ("published"), ("read"), ("wordscount")]

/-- The `in` arm: location filter, with the folder clause when folder
scoping is enabled. -/
def serializeInCase (useFolders : Bool) (value : String) (st : QState) :
    Except SerializeError (Option String × QState) :=
  let lv := jsToLower value
  if lv = ("all") then .ok (none, st)
  else if lv = ("archive") then .ok (some ("library_item.archived_at IS NOT NULL"), st)
  else if lv = ("trash") then .ok (some ("library_item.deleted_at >= now() - interval \x2714 days\x27"), st)
  else if useFolders then
    let param := mkName ("folder") st.parameters.length
    let r := escapeQueryWithParameters st (("library_item.folder = :") ++ param) [(param, QValue.vstr value)]
    .ok (some (("(library_item.archived_at IS NULL AND ") ++ r.1 ++ (")")), r.2)
  else .ok (some ("library_item.archived_at IS NULL"), st)

/-- The `is` arm: read-progress filter. -/
def serializeIsCase (value : String) (st : QState) :
    Except SerializeError (Option String × QState) :=
  let lv := jsToLower value
  if lv = ("read") then .ok (some ("library_item.reading_progress_bottom_percent > 98"), st)
  else if lv = ("reading") then .ok (some ("library_item.reading_progress_bottom_percent BETWEEN 2 AND 98"), st)
  else if lv = ("unread") then .ok (some ("library_item.reading_progress_bottom_percent < 2"), st)
  else .error (.unexpectedKeyword value)

/-- The `type` arm: case-insensitive item-type equality. -/
def serializeTypeCase (value : String) (st : QState) :
    Except SerializeError (Option String × QState) :=
  let param := mkName ("type") st.parameters.length
  let r := escapeQueryWithParameters st (("LOWER(library_item.item_type) = :") ++ param) [(param, QValue.vstr (jsToLower value))]
  .ok (some r.1, r.2)

/-- The `label` arm: comma split, per-label clause, OR join,
parenthesized. -/
def serializeLabelCase (value : String) (st : QState) :
    Except SerializeError (Option String × QState) :=
  let labels := jsSplit (",") (jsToLower value)
  let r := serializeLabels labels st
  .ok (some (("(") ++ String.intercalate (" OR ") r.1 ++ (")")), r.2)

/-- The `sort` arm: parse `field-direction`, ignore unknown sort keys,
push a sort directive and return null. -/
def serializeSortCase (value : String) (st : QState) :
    Except SerializeError (Option String × QState) :=
  let parts := jsSplit ("-") (jsToLower value)
  let sortField := parts.headD ("")
  match sortByValues.find? (fun sortBy => sortBy == sortField) with
  | none => .ok (none, st)
  | some matchingSortBy =>
    match getColumnName matchingSortBy with
    | .error e => .error e
    | .ok column =>
      let order := if parts.get? 1 = some ("asc") then SortOrder.ascending else SortOrder.descending
      let nulls := if order = SortOrder.ascending then ("NULLS FIRST") else ("NULLS LAST")
      .ok (none, pushOrder st ⟨("library_item.") ++ column, some order, some nulls⟩)

/-- The date arms (`saved`, `read`, `updated`, `published`): special
values, `start..end` ranges with `*` wildcards, BETWEEN clause with
two fresh parameters defaulting to epoch / now. -/
def serializeDateCase (env : DateEnv) (fname value : String) (st : QState) :
    Except SerializeError (Option String × QState) :=
  let lv := jsToLower value
  let startEnd : Except SerializeError (Option Int × Option Int) :=
    if lv = ("today") then .ok (some env.startOfToday, none)
    else if lv = ("yesterday") then .ok (some env.startOfYesterday, some env.endOfYesterday)
    else if lv = ("this week") then .ok (some env.startOfWeek, none)
    else if lv = ("this month") then .ok (some env.startOfMonth, none)
    else
      let parts := jsSplit ("..") value
      let startStr := parts.headD ("")
      let endStr := (parts.get? 1).getD ("")
      match (if startStr = ("") ∨ startStr = ("*") then Except.ok none
             else match env.parseDate startStr with
               | none => Except.error SerializeError.invalidStartDate
               | some d => Except.ok (some d)) with
      | .error e => .error e
      | .ok startDate =>
        match (if endStr = ("") ∨ endStr = ("*") then Except.ok none
               else match env.parseDate endStr with
                 | none => Except.error SerializeError.invalidEndDate
                 | some d => Except.ok (some d)) with
        | .error e => .error e
        | .ok endDate => .ok (startDate, endDate)
  match startEnd with
  | .error e => .error e
  | .ok se =>
    let n := st.parameters.length
    let startParam := mkName (fname ++ ("_start")) n
    let endParam := mkName (fname ++ ("_end")) n
    let r := escapeQueryWithParameters st (("library_item.") ++ fname ++ ("_at BETWEEN :") ++ startParam ++ (" AND :") ++ endParam) [(startParam, QValue.vdate (se.1.getD 0)), (endParam, QValue.vdate (se.2.getD env.now))]
    .ok (some r.1, r.2)

/-- The term arms (`subscription`, `rss`, `language`): exact equality
on the mapped column. -/
def serializeTermCase (fname value : String) (st : QState) :
    Except SerializeError (Option String × QState) :=
  match getColumnName fname with
  | .error e => .error e
  | .ok columnName =>
    let param := mkName (("term_") ++ fname) st.parameters.length
    let r := escapeQueryWithParameters st (("library_item.") ++ columnName ++ (" = :") ++ param) [(param, QValue.vstr value)]
    .ok (some r.1, r.2)

/-- The match arms (`author`, `title`, `description`, `note`, `site`):
full-text OR wildcard substring match, two parameters. -/
def serializeMatchCase (fname value : String) (st : QState) :
    Except SerializeError (Option String × QState) :=
  match getColumnName fname with
  | .error e => .error e
  | .ok columnName =>
    let n := st.parameters.length
    let param := mkName (("match_") ++ fname) n
    let wildcardParam := mkName (("match_") ++ fname ++ ("_wildcard")) n
    let r := escapeQueryWithParameters st (("(websearch_to_tsquery(\x27english\x27, :") ++ param ++ (") @@ library_item.") ++ columnName ++ ("_tsv OR library_item.") ++ columnName ++ (" ILIKE :") ++ wildcardParam ++ (")")) [(param, QValue.vstr value), (wildcardParam, QValue.vstr (("%") ++ value ++ ("%")))]
    .ok (some r.1, r.2)

/-- The `includes` arm: comma split into an id list, bound as one
parameter. -/
def serializeIncludesCase (value : String) (st : QState) :
    Except SerializeError (Option String × QState) :=
  let ids := jsSplit (",") value
  if ids.length = 0 then .error .expectedIds
  else
    let param := mkName ("includes") st.parameters.length
    let r := escapeQueryWithParameters st (("library_item.id = ANY(:") ++ param ++ (")")) [(param, QValue.vlist ids)]
    .ok (some r.1, r.2)

/-- The `recommendedby` arm. -/
def serializeRecommendedByCase (value : String) (st : QState) :
    Except SerializeError (Option String × QState) :=
  if value = ("*") then .ok (some ("library_item.recommender_names <> \x27\x7b\x7d\x27"), st)
  else
    let param := mkName ("recommendedBy") st.parameters.length
    let r := escapeQueryWithParameters st ((":") ++ param ++ (" = ANY(lower(library_item.recommender_names::text)::text[])")) [(param, QValue.vstr (jsToLower value))]
    .ok (some r.1, r.2)

/-- The numeric range arms (`readposition`, `wordscount`): first
comparator occurrence, stripped, remainder parsed as integer. -/
def serializeRangeCase (fname value : String) (st : QState) :
    Except SerializeError (Option String × QState) :=
  match getColumnName fname with
  | .error e => .error e
  | .ok column =>
    match findComparator value.data with
    | none => .error .expectedOperator
    | some (bef, op, aft) =>
      let newValue := String.mk (bef ++ aft)
      let param := mkName (("range_") ++ fname) st.parameters.length
      let r := escapeQueryWithParameters st (("library_item.") ++ column ++ (" ") ++ String.mk op ++ (" :") ++ param) [(param, QValue.vnum (jsParseInt newValue))]
      .ok (some r.1, r.2)

/-- The named-field body of `serializeTagExpression`: the guard
ignoring empty values followed by the `switch` over the lower-cased
field name, arm for arm; an unknown field falls through to
`serializeImplicitField` on `"<field>:<value>"`. -/
def serializeNamedField (env : DateEnv) (useFolders : Bool) (fname value : String) (st : QState) :
    Except SerializeError (Option String × QState) :=
  if value = ("") then .ok (none, st)
  else
    let lname := jsToLower fname
    if lname = ("in") then serializeInCase useFolders value st
    else if lname = ("is") then serializeIsCase value st
    else if lname = ("type") then serializeTypeCase value st
    else if lname = ("label") then serializeLabelCase value st
    else if lname = ("sort") then serializeSortCase value st
    else if lname = ("has") then
      match handleNoCase value with
      | .error e => .error e
      | .ok s => .ok (some (("NOT (") ++ s ++ (")")), st)
    else if lname = ("saved") ∨ lname = ("read") ∨ lname = ("updated") ∨ lname = ("published") then
      serializeDateCase env fname value st
    else if lname = ("subscription") ∨ lname = ("rss") ∨ lname = ("language") then
      serializeTermCase fname value st
    else if lname = ("author") ∨ lname = ("title") ∨ lname = ("description") ∨ lname = ("note") ∨ lname = ("site") then
      serializeMatchCase fname value st
    else if lname = ("includes") then serializeIncludesCase value st
    else if lname = ("recommendedby") then serializeRecommendedByCase value st
    else if lname = ("no") then
      match handleNoCase value with
      | .error e => .error e
      | .ok s => .ok (some s, st)
    else if lname = ("use") ∨ lname = ("mode") ∨ lname = ("event") then .ok (none, st)
    else if lname = ("readposition") ∨ lname = ("wordscount") then
      serializeRangeCase fname value st
    else
      serializeImplicitField (.literalExpression (some (fname ++ (":") ++ value))) st

/-- Model of `serializeTagExpression`: non-tags are rejected, implicit fields go
to `serializeImplicitField`, non-literal and absent values are
ignored, and named fields with a literal value dispatch through
`serializeNamedField`. -/
def serializeTagExpression (env : DateEnv) (useFolders : Bool) (ast : LiqeQuery) (st : QState) :
    Except SerializeError (Option String × QState) :=
  match ast with
  | .tag field expression =>
    match field with
    | .implicitField => serializeImplicitField expression st
    | .namedField fname =>
      match expression with
      | .emptyExpression => .ok (none, st)
      | .literalExpression none => .ok (none, st)
      | .literalExpression (some value) => serializeNamedField env useFolders fname value st
  | _ => .error .expectedTag

/-- Model of `serialize`: the recursive tree walk. Logical expressions validate
the operator before recursing, combine with null/falsy absorption;
`NOT` and parentheses absorb null and otherwise wrap. -/
def serialize (env : DateEnv) (useFolders : Bool) : LiqeQuery → QState → Except SerializeError (Option String × QState)
  | .tag field expression, st => serializeTagExpression env useFolders (.tag field expression) st
  | .logicalExpression op left right, st =>
    match (if op = ("AND") then some ("AND") else if op = ("OR") then some ("OR") else none) with
    | none => .error .unexpectedOperator
    | some operator =>
      match serialize env useFolders left st with
      | .error e => .error e
      | .ok (l, st1) =>
        match serialize env useFolders right st1 with
        | .error e => .error e
        | .ok (r, st2) =>
          if jsFalsy l && jsFalsy r then .ok (none, st2)
          else if jsFalsy l then .ok (r, st2)
          else if jsFalsy r then .ok (l, st2)
          else .ok (some (l.getD ("") ++ (" ") ++ operator ++ (" ") ++ r.getD ("")), st2)
  | .unaryOperator operand, st =>
    match serialize env useFolders operand st with
    | .error e => .error e
    | .ok (serialized, st1) =>
      if jsFalsy serialized then .ok (none, st1)
      else .ok (some (("NOT ") ++ serialized.getD ("")), st1)
  | .parenthesizedExpression expression, st =>
    match serialize env useFolders expression st with
    | .error e => .error e
    | .ok (serialized, st1) =>
      if jsFalsy serialized then .ok (none, st1)
      else .ok (some (("(") ++ serialized.getD ("") ++ (")")), st1)
  | .otherNode, st => .ok (none, st)

/-- Model of `buildQuery`: run `serialize` over the query with the shared
accumulation state. -/
def buildQuery (env : DateEnv) (searchQuery : LiqeQuery) (useFolders : Bool) (st : QState) :
    Except SerializeError (Option String × QState) :=
  serialize env useFolders searchQuery st

/-- The default-sort step of `searchLibraryItems`: append the
descending nulls-last sort on `saved_at` unless some accumulated order
already targets that column. -/
def finalizeOrders (orders : List SortKey) : List SortKey :=
  if (orders.find? (fun order => order.by_ == ("library_item.saved_at"))).isSome then orders
  else orders ++ [⟨("library_item.saved_at"), some SortOrder.descending, some ("NULLS LAST")⟩]

/-- A label row (`Label` entity): id and name. -/
structure Label where
  id : String
  name : String
deriving DecidableEq, Repr

/-- The slice of a `LibraryItem` row used by the `AddLabels` bulk
action: its id and its (optional) array of existing label names. -/
structure LibraryItemRec where
  id : String
  labelNames : Option (List String)
deriving DecidableEq, Repr

/-- An `EntityLabel` association row to insert. -/
structure EntityLabel where
  labelId : String
  libraryItemId : String
  name : String
deriving DecidableEq, Repr

/-- The `labelsToAdd` computation of the `AddLabels` branch of
`batchUpdateLibraryItems`: for every matching item, keep a requested
label when `!existingLabel` holds, where `existingLabel` is the
case-insensitive lookup among the item's existing label names. The
negation is a JS falsiness test on a `string | undefined` value, so
the entity is kept both when the lookup finds nothing and when the
found existing name is the empty string. -/
def labelsToAdd (libraryItems : List LibraryItemRec) (labels : List Label) : List EntityLabel :=
  libraryItems.flatMap (fun libraryItem =>
    (labels.map (fun label => EntityLabel.mk label.id libraryItem.id label.name)).filter
      (fun entityLabel =>
        jsFalsy ((libraryItem.labelNames.getD []).find?
          (fun l => jsToLower l == jsToLower entityLabel.name))))

/-- Trees built entirely from tags whose literal value is empty or
absent, combined with well-formed liqe connectives (the liqe
`LogicalExpression` operator type is `AND | OR`). -/
def emptyTagsWf : LiqeQuery → Bool
  | .tag _ (.literalExpression none) => true
  | .tag _ (.literalExpression (some v)) => v == ("")
  | .tag _ .emptyExpression => false
  | .logicalExpression op l r => (op == ("AND") || op == ("OR")) && emptyTagsWf l && emptyTagsWf r
  | .unaryOperator x => emptyTagsWf x
  | .parenthesizedExpression x => emptyTagsWf x
  | .otherNode => false

/-- A fixed environment for concrete witnesses (the compiler output is
time-independent except for the bound date values). -/
def dateEnv0 : DateEnv :=
  ⟨0, 0, 0, 0, 0, 0, fun _ => none⟩

/-!
Decimal representation facts about `Nat.repr`, used to show that
parameter names (`prefix_count`) are collision-free: names carry their
index as the trailing digit run and their digit-free prefix before it.
-/

theorem toDigitsCore_acc (fuel : Nat) : ∀ (n : Nat) (ds : List Char), n < fuel →
    Nat.toDigitsCore 10 fuel n ds = Nat.toDigitsCore 10 fuel n [] ++ ds := by
  induction fuel with
  | zero => intro n ds h; omega
  | succ fuel ih =>
    intro n ds _
    simp only [Nat.toDigitsCore]
    by_cases h0 : n / 10 = 0
    · simp [h0]
    · have h10 : 10 ≤ n := by
        rcases Nat.lt_or_ge n 10 with h | h
        · exact absurd (Nat.div_eq_of_lt h) h0
        · exact h
      have hlt : n / 10 < fuel := by
        have := Nat.div_lt_self (by omega : 0 < n) (by omega : 1 < 10)
        omega
      simp only [h0, if_false]
      rw [ih (n / 10) ((n % 10).digitChar :: ds) hlt, ih (n / 10) [(n % 10).digitChar] hlt]
      simp

theorem toDigitsCore_fuel (n : Nat) : ∀ (f1 f2 : Nat), n < f1 → n < f2 →
    Nat.toDigitsCore 10 f1 n [] = Nat.toDigitsCore 10 f2 n [] := by
  induction n using Nat.strong_induction_on with
  | _ n ih =>
    intro f1 f2 h1 h2
    cases f1 with
    | zero => omega
    | succ g1 =>
      cases f2 with
      | zero => omega
      | succ g2 =>
        simp only [Nat.toDigitsCore]
        by_cases h0 : n / 10 = 0
        · simp [h0]
        · have h10 : 10 ≤ n := by
            rcases Nat.lt_or_ge n 10 with h | h
            · exact absurd (Nat.div_eq_of_lt h) h0
            · exact h
          have hn : n / 10 < n := Nat.div_lt_self (by omega) (by omega)
          simp only [h0, if_false]
          rw [toDigitsCore_acc g1 (n / 10) _ (by omega), toDigitsCore_acc g2 (n / 10) _ (by omega),
            ih (n / 10) hn g1 g2 (by omega) (by omega)]

theorem toDigits_rec (n : Nat) :
    Nat.toDigits 10 n =
      if n < 10 then [Nat.digitChar n]
      else Nat.toDigits 10 (n / 10) ++ [Nat.digitChar (n % 10)] := by
  by_cases h : n < 10
  · simp only [h, if_true, Nat.toDigits, Nat.toDigitsCore, Nat.div_eq_of_lt h, if_true,
      Nat.mod_eq_of_lt h]
  · have h10 : 10 ≤ n := by omega
    have h0 : ¬ n / 10 = 0 := by
      have := (Nat.one_le_div_iff (by omega : 0 < 10)).mpr h10
      omega
    have hn : n / 10 < n := Nat.div_lt_self (by omega) (by omega)
    rw [if_neg h]
    have lhs : Nat.toDigits 10 n = Nat.toDigitsCore 10 n (n / 10) [(n % 10).digitChar] := by
      simp only [Nat.toDigits, Nat.toDigitsCore, h0, if_false]
    rw [lhs, toDigitsCore_acc n (n / 10) _ hn,
      toDigitsCore_fuel (n / 10) n (n / 10 + 1) hn (Nat.lt_succ_self _)]
    rfl

theorem digitVal_toDigits (n : Nat) : digitVal (Nat.toDigits 10 n) = n := by
  induction n using Nat.strong_induction_on with
  | _ n ih =>
    rw [toDigits_rec]
    by_cases h : n < 10
    · have : (Nat.digitChar n).toNat - 48 = n := by
        have := (by decide : ∀ m, m < 10 → (Nat.digitChar m).toNat - 48 = m)
        exact this n h
      simp [digitVal, h, this]
    · have h10 : 10 ≤ n := by omega
      have hn : n / 10 < n := Nat.div_lt_self (by omega) (by omega)
      have hm : (Nat.digitChar (n % 10)).toNat - 48 = n % 10 := by
        have := (by decide : ∀ m, m < 10 → (Nat.digitChar m).toNat - 48 = m)
        exact this _ (Nat.mod_lt _ (by omega))
      have ihn := ih (n / 10) hn
      simp only [h, if_false, digitVal, List.foldl_append, List.foldl_cons, List.foldl_nil]
      simp only [digitVal] at ihn
      rw [ihn, hm]
      omega

theorem toDigits_all_digits (n : Nat) : ∀ c ∈ Nat.toDigits 10 n, c.isDigit = true := by
  induction n using Nat.strong_induction_on with
  | _ n ih =>
    rw [toDigits_rec]
    have hdig := (by decide : ∀ m, m < 10 → (Nat.digitChar m).isDigit = true)
    by_cases h : n < 10
    · simp only [h, if_true, List.mem_singleton]
      intro c hc
      subst hc
      exact hdig n h
    · have hn : n / 10 < n := Nat.div_lt_self (by omega) (by omega)
      simp only [h, if_false, List.mem_append, List.mem_singleton]
      intro c hc
      rcases hc with hc | hc
      · exact ih (n / 10) hn c hc
      · subst hc
        exact hdig _ (Nat.mod_lt _ (by omega))

theorem toDigits_ne_nil (n : Nat) : Nat.toDigits 10 n ≠ [] := by
  rw [toDigits_rec]
  by_cases h : n < 10 <;> simp [h]

theorem repr_data (n : Nat) : (Nat.repr n).data = Nat.toDigits 10 n := rfl

theorem toDigits_inj (m n : Nat) (h : Nat.toDigits 10 m = Nat.toDigits 10 n) : m = n := by
  rw [← digitVal_toDigits m, ← digitVal_toDigits n, h]

/-!
Parameter-name shape: every name recorded by the compiler is a
prefix, an underscore, and the decimal parameter count at binding
time. Since the decimal digits run to the end of the name and the
underscore just before them is not a digit, the trailing digit run of
a name recovers the count exactly, so names from different parameter
objects can never collide.
-/

/-- Name of the form `prefix_k`. -/
def goodEntryName (k : Nat) (nm : String) : Prop :=
  ∃ p : List Char, nm.data = p ++ '_' :: Nat.toDigits 10 k

/-- The trailing digit run of a name. -/
def digitSuffix (nm : String) : List Char :=
  (nm.data.reverse.takeWhile (fun c => c.isDigit)).reverse

/-- Decode the parameter index from a name. -/
def decodeIdx (nm : String) : Nat := digitVal (digitSuffix nm)

theorem data_append (a b : String) : (a ++ b).data = a.data ++ b.data := rfl

theorem mkName_data (pfx : String) (k : Nat) :
    (mkName pfx k).data = pfx.data ++ '_' :: Nat.toDigits 10 k := by
  simp [mkName, data_append, repr_data]

theorem goodEntryName_mkName (pfx : String) (k : Nat) :
    goodEntryName k (mkName pfx k) :=
  ⟨pfx.data, mkName_data pfx k⟩

theorem takeWhile_digits_append (d : List Char) (x : List Char)
    (hd : ∀ c ∈ d, c.isDigit = true) :
    (d ++ '_' :: x).takeWhile (fun c => c.isDigit) = d := by
  induction d with
  | nil => simp [List.takeWhile_cons]
  | cons c rest ih =>
    have hc : c.isDigit = true := hd c (by simp)
    simp only [List.cons_append, List.takeWhile_cons, hc, if_true]
    rw [ih (fun c hc => hd c (by simp [hc]))]

theorem decodeIdx_goodEntryName (k : Nat) (nm : String) (h : goodEntryName k nm) :
    decodeIdx nm = k := by
  obtain ⟨p, hdata⟩ := h
  have hrev : nm.data.reverse = (Nat.toDigits 10 k).reverse ++ '_' :: p.reverse := by
    rw [hdata]
    simp
  have htw : (nm.data.reverse.takeWhile (fun c => c.isDigit)) = (Nat.toDigits 10 k).reverse := by
    rw [hrev]
    exact takeWhile_digits_append _ _ (fun c hc => toDigits_all_digits k c (List.mem_reverse.mp hc))
  simp only [decodeIdx, digitSuffix, htw, List.reverse_reverse]
  exact digitVal_toDigits k

theorem goodEntryName_inj (k1 k2 : Nat) (nm : String)
    (h1 : goodEntryName k1 nm) (h2 : goodEntryName k2 nm) : k1 = k2 := by
  rw [← decodeIdx_goodEntryName k1 nm h1, ← decodeIdx_goodEntryName k2 nm h2]

/-- The names of one parameter object. -/
def objNames (obj : List (String × QValue)) : List String := obj.map Prod.fst

/-- All names of the parameter table, in binding order. -/
def paramNames (ps : List (List (String × QValue))) : List String :=
  ps.flatMap objNames

/-- Invariant of one parameter object at index `k`: its names are
distinct and all of shape `prefix_k`. -/
def GoodObj (k : Nat) (obj : List (String × QValue)) : Prop :=
  (objNames obj).Nodup ∧ ∀ e ∈ obj, goodEntryName k e.1

/-- Invariant of the parameter table: the object pushed `k`-th carries
names indexed `k`. -/
def GoodParams (ps : List (List (String × QValue))) : Prop :=
  ∀ k, (h : k < ps.length) → GoodObj k ps[k]

theorem GoodParams.nil : GoodParams [] := by
  intro k h
  simp at h

theorem GoodParams.push (ps : List (List (String × QValue))) (obj : List (String × QValue))
    (hps : GoodParams ps) (hobj : GoodObj ps.length obj) : GoodParams (ps ++ [obj]) := by
  intro k hk
  rcases Nat.lt_or_ge k ps.length with h | h
  · rw [List.getElem_append_left h]
    exact hps k h
  · have hk' : k = ps.length := by
      simp only [List.length_append, List.length_singleton] at hk
      omega
    subst hk'
    rw [List.getElem_concat_length ps obj _ rfl]
    exact hobj

theorem GoodParams.nodup (ps : List (List (String × QValue))) (h : GoodParams ps) :
    (paramNames ps).Nodup := by
  rw [paramNames, List.nodup_flatMap]
  constructor
  · intro obj hobj
    obtain ⟨i, hi, rfl⟩ := List.mem_iff_getElem.mp hobj
    exact (h i hi).1
  · rw [List.pairwise_iff_getElem]
    intro i j hi hj hij
    intro nm hni hnj
    obtain ⟨e1, he1, rfl⟩ := List.mem_map.mp hni
    obtain ⟨e2, he2, he2e⟩ := List.mem_map.mp hnj
    have g1 : goodEntryName i e1.1 := (h i hi).2 e1 he1
    have g2 : goodEntryName j e1.1 := he2e ▸ (h j hj).2 e2 he2
    exact absurd (goodEntryName_inj i j e1.1 g1 g2) (by omega)

theorem GoodObj_single (k : Nat) (pfx : String) (v : QValue) :
    GoodObj k [(mkName pfx k, v)] := by
  constructor
  · simp [objNames]
  · intro e he
    simp only [List.mem_singleton] at he
    subst he
    exact goodEntryName_mkName pfx k

theorem mkName_length (pfx : String) (k : Nat) :
    (mkName pfx k).data.length = pfx.data.length + 1 + (Nat.toDigits 10 k).length := by
  rw [mkName_data]
  simp
  omega

theorem GoodObj_pair (k : Nat) (pfx1 pfx2 : String) (v1 v2 : QValue)
    (hlen : pfx1.data.length ≠ pfx2.data.length) :
    GoodObj k [(mkName pfx1 k, v1), (mkName pfx2 k, v2)] := by
  constructor
  · have hne : mkName pfx1 k ≠ mkName pfx2 k := by
      intro hc
      have := congrArg (fun s => s.data.length) hc
      simp only [mkName_length] at this
      omega
    simp [objNames, hne]
  · intro e he
    simp only [List.mem_cons, List.mem_singleton] at he
    rcases he with he | he | he
    · subst he
      exact goodEntryName_mkName pfx1 k
    · subst he
      exact goodEntryName_mkName pfx2 k
    · cases he

theorem jsToLower_data (s : String) : (jsToLower s).data = s.data.map Char.toLower := rfl

theorem GoodObj_match_pair (k : Nat) (fname : String) (v1 v2 : QValue) :
    GoodObj k [(mkName (("match_") ++ fname) k, v1),
               (mkName (("match_") ++ fname ++ ("_wildcard")) k, v2)] := by
  apply GoodObj_pair
  rw [data_append, data_append, data_append, List.length_append, List.length_append,
    List.length_append]
  have h9 : ("_wildcard" : String).data.length = 9 := rfl
  omega

theorem GoodObj_date_pair (k : Nat) (fname : String) (v1 v2 : QValue) :
    GoodObj k [(mkName (fname ++ ("_start")) k, v1),
               (mkName (fname ++ ("_end")) k, v2)] := by
  apply GoodObj_pair
  rw [data_append, data_append, List.length_append, List.length_append]
  have h6 : ("_start" : String).data.length = 6 := rfl
  have h4 : ("_end" : String).data.length = 4 := rfl
  omega

/-!
Joint invariants of the serializer: it preserves the parameter-name
shape, and it never returns a non-null empty clause (which matters
because the combinators in `serialize` test JS falsiness, under which
`null` and `""` coincide).
-/

theorem ne_nil_head (a b : String) (h : a.data ≠ []) : (a ++ b).data ≠ [] := by
  rw [data_append]
  intro hc
  exact h (List.append_eq_nil.mp hc).1

theorem ne_nil_tail (a b : String) (h : b.data ≠ []) : (a ++ b).data ≠ [] := by
  rw [data_append]
  intro hc
  exact h (List.append_eq_nil.mp hc).2

theorem handleNoCase_ne_nil (value s : String) (h : handleNoCase value = .ok s) :
    s.data ≠ [] := by
  rw [handleNoCase] at h
  split at h
  · split at h
    · exact Except.noConfusion h
    · simp only [Except.ok.injEq] at h
      subst h
      apply ne_nil_head
      apply ne_nil_head
      apply ne_nil_head
      apply ne_nil_head
      decide
  · exact Except.noConfusion h

theorem serializeImplicitField_invariants (e : ExpressionToken) (st : QState)
    (c : Option String) (st' : QState)
    (h : serializeImplicitField e st = .ok (c, st')) :
    (GoodParams st.parameters → GoodParams st'.parameters) ∧
    (∀ s, c = some s → s.data ≠ []) := by
  cases e with
  | emptyExpression => exact Except.noConfusion h
  | literalExpression value? =>
    cases value? with
    | none =>
      replace h : (Except.ok (none, st) : Except SerializeError (Option String × QState)) = .ok (c, st') := h
      simp only [Except.ok.injEq, Prod.mk.injEq] at h
      obtain ⟨rfl, rfl⟩ := h
      exact ⟨fun hg => hg, fun s hs => by cases hs⟩
    | some value =>
      rw [show serializeImplicitField (.literalExpression (some value)) st =
          if value = ("") then .ok (none, st)
          else
            .ok (some (("websearch_to_tsquery(\x27english\x27, :") ++ mkName ("implicit_field") st.parameters.length ++ (") @@ library_item.search_tsv")),
              pushParam
                (pushOrder
                  (pushSelect st ⟨("ts_rank_cd(library_item.search_tsv, websearch_to_tsquery(\x27english\x27, :") ++ mkName ("implicit_field") st.parameters.length ++ ("))"), some (mkName ("rank") st.parameters.length)⟩)
                  ⟨mkName ("rank") st.parameters.length, some SortOrder.descending, none⟩)
                [(mkName ("implicit_field") st.parameters.length, QValue.vstr value)]) from rfl] at h
      split at h
      · simp only [Except.ok.injEq, Prod.mk.injEq] at h
        obtain ⟨rfl, rfl⟩ := h
        exact ⟨fun hg => hg, fun s hs => by cases hs⟩
      · simp only [Except.ok.injEq, Prod.mk.injEq] at h
        obtain ⟨rfl, rfl⟩ := h
        constructor
        · intro hg
          exact GoodParams.push _ _ hg (GoodObj_single _ _ _)
        · intro s hs
          injection hs with hs
          subst hs
          apply ne_nil_head
          apply ne_nil_head
          decide

theorem serializeLabels_params (labels : List String) (st : QState)
    (h : GoodParams st.parameters) :
    GoodParams (serializeLabels labels st).2.parameters := by
  induction labels generalizing st with
  | nil => exact h
  | cons label rest ih =>
    rw [serializeLabels]
    split
    · exact ih _ (GoodParams.push _ _ h (GoodObj_single _ _ _))
    · exact ih _ (GoodParams.push _ _ h (GoodObj_single _ _ _))

/-- The joint invariant relating input state, output state, and
returned clause of any serializer step. -/
abbrev SerInv (st st' : QState) (c : Option String) : Prop :=
  (GoodParams st.parameters → GoodParams st'.parameters) ∧
  (∀ s, c = some s → s.data ≠ [])

theorem SerInv_same_none (st : QState) : SerInv st st none :=
  ⟨fun hg => hg, fun s hs => by cases hs⟩

theorem SerInv_same_some (st : QState) (q : String) (hq : q.data ≠ []) :
    SerInv st st (some q) :=
  ⟨fun hg => hg, fun s hs => by injection hs with hs; subst hs; exact hq⟩

theorem SerInv_push (st : QState) (obj : List (String × QValue))
    (hobj : GoodObj st.parameters.length obj) (q : String) (hq : q.data ≠ []) :
    SerInv st (pushParam st obj) (some q) :=
  ⟨fun hg => GoodParams.push _ _ hg hobj,
   fun s hs => by injection hs with hs; subst hs; exact hq⟩

theorem serializeInCase_invariants (uf : Bool) (value : String) (st : QState)
    (c : Option String) (st' : QState)
    (h : serializeInCase uf value st = .ok (c, st')) : SerInv st st' c := by
  simp only [serializeInCase] at h
  repeat' split at h
  all_goals
    simp only [Except.ok.injEq, Prod.mk.injEq] at h
  all_goals
    obtain ⟨rfl, rfl⟩ := h
  · exact SerInv_same_none _
  · exact SerInv_same_some _ _ (by decide)
  · exact SerInv_same_some _ _ (by decide)
  · exact SerInv_push _ _ (GoodObj_single _ _ _) _ (by
      repeat' apply ne_nil_head
      decide)
  · exact SerInv_same_some _ _ (by decide)

theorem serializeIsCase_invariants (value : String) (st : QState)
    (c : Option String) (st' : QState)
    (h : serializeIsCase value st = .ok (c, st')) : SerInv st st' c := by
  simp only [serializeIsCase] at h
  repeat' split at h
  all_goals
    first
    | exact Except.noConfusion h
    | (simp only [Except.ok.injEq, Prod.mk.injEq] at h
       obtain ⟨rfl, rfl⟩ := h
       exact SerInv_same_some _ _ (by decide))

theorem serializeTypeCase_invariants (value : String) (st : QState)
    (c : Option String) (st' : QState)
    (h : serializeTypeCase value st = .ok (c, st')) : SerInv st st' c := by
  simp only [serializeTypeCase] at h
  simp only [Except.ok.injEq, Prod.mk.injEq] at h
  obtain ⟨rfl, rfl⟩ := h
  exact SerInv_push _ _ (GoodObj_single _ _ _) _ (by
    repeat' apply ne_nil_head
    decide)

theorem serializeLabelCase_invariants (value : String) (st : QState)
    (c : Option String) (st' : QState)
    (h : serializeLabelCase value st = .ok (c, st')) : SerInv st st' c := by
  simp only [serializeLabelCase] at h
  simp only [Except.ok.injEq, Prod.mk.injEq] at h
  obtain ⟨rfl, rfl⟩ := h
  constructor
  · intro hg
    exact serializeLabels_params _ _ hg
  · intro s hs
    injection hs with hs
    subst hs
    apply ne_nil_head
    apply ne_nil_head
    decide

theorem serializeSortCase_invariants (value : String) (st : QState)
    (c : Option String) (st' : QState)
    (h : serializeSortCase value st = .ok (c, st')) : SerInv st st' c := by
  simp only [serializeSortCase] at h
  repeat' split at h
  all_goals
    first
    | exact Except.noConfusion h
    | (simp only [Except.ok.injEq, Prod.mk.injEq] at h
       obtain ⟨rfl, rfl⟩ := h
       exact SerInv_same_none _)

theorem serializeDateCase_invariants (env : DateEnv) (fname value : String) (st : QState)
    (c : Option String) (st' : QState)
    (h : serializeDateCase env fname value st = .ok (c, st')) : SerInv st st' c := by
  simp only [serializeDateCase] at h
  split at h
  · exact Except.noConfusion h
  · simp only [Except.ok.injEq, Prod.mk.injEq] at h
    obtain ⟨rfl, rfl⟩ := h
    exact SerInv_push _ _ (GoodObj_date_pair _ _ _ _) _ (by
      repeat' apply ne_nil_head
      decide)

theorem serializeTermCase_invariants (fname value : String) (st : QState)
    (c : Option String) (st' : QState)
    (h : serializeTermCase fname value st = .ok (c, st')) : SerInv st st' c := by
  simp only [serializeTermCase] at h
  split at h
  · exact Except.noConfusion h
  · simp only [Except.ok.injEq, Prod.mk.injEq] at h
    obtain ⟨rfl, rfl⟩ := h
    exact SerInv_push _ _ (GoodObj_single _ _ _) _ (by
      repeat' apply ne_nil_head
      decide)

theorem serializeMatchCase_invariants (fname value : String) (st : QState)
    (c : Option String) (st' : QState)
    (h : serializeMatchCase fname value st = .ok (c, st')) : SerInv st st' c := by
  simp only [serializeMatchCase] at h
  split at h
  · exact Except.noConfusion h
  · simp only [Except.ok.injEq, Prod.mk.injEq] at h
    obtain ⟨rfl, rfl⟩ := h
    exact SerInv_push _ _ (GoodObj_match_pair _ _ _ _) _ (by
      repeat' apply ne_nil_head
      decide)

theorem serializeIncludesCase_invariants (value : String) (st : QState)
    (c : Option String) (st' : QState)
    (h : serializeIncludesCase value st = .ok (c, st')) : SerInv st st' c := by
  simp only [serializeIncludesCase] at h
  split at h
  · exact Except.noConfusion h
  · simp only [Except.ok.injEq, Prod.mk.injEq] at h
    obtain ⟨rfl, rfl⟩ := h
    exact SerInv_push _ _ (GoodObj_single _ _ _) _ (by
      repeat' apply ne_nil_head
      decide)

theorem serializeRecommendedByCase_invariants (value : String) (st : QState)
    (c : Option String) (st' : QState)
    (h : serializeRecommendedByCase value st = .ok (c, st')) : SerInv st st' c := by
  simp only [serializeRecommendedByCase] at h
  split at h
  · simp only [Except.ok.injEq, Prod.mk.injEq] at h
    obtain ⟨rfl, rfl⟩ := h
    exact SerInv_same_some _ _ (by decide)
  · simp only [Except.ok.injEq, Prod.mk.injEq] at h
    obtain ⟨rfl, rfl⟩ := h
    exact SerInv_push _ _ (GoodObj_single _ _ _) _ (by
      repeat' apply ne_nil_head
      decide)

theorem serializeRangeCase_invariants (fname value : String) (st : QState)
    (c : Option String) (st' : QState)
    (h : serializeRangeCase fname value st = .ok (c, st')) : SerInv st st' c := by
  simp only [serializeRangeCase] at h
  repeat' split at h
  all_goals
    first
    | exact Except.noConfusion h
    | (simp only [Except.ok.injEq, Prod.mk.injEq] at h
       obtain ⟨rfl, rfl⟩ := h
       exact SerInv_push _ _ (GoodObj_single _ _ _) _ (by
         repeat' apply ne_nil_head
         decide))

theorem serializeNamedField_invariants (env : DateEnv) (uf : Bool) (fname value : String)
    (st : QState) (c : Option String) (st' : QState)
    (h : serializeNamedField env uf fname value st = .ok (c, st')) :
    (GoodParams st.parameters → GoodParams st'.parameters) ∧
    (∀ s, c = some s → s.data ≠ []) := by
  simp only [serializeNamedField] at h
  by_cases h0 : value = ("")
  · rw [if_pos h0] at h
    simp only [Except.ok.injEq, Prod.mk.injEq] at h
    obtain ⟨rfl, rfl⟩ := h
    exact SerInv_same_none _
  rw [if_neg h0] at h
  by_cases h1 : jsToLower fname = ("in")
  · rw [if_pos h1] at h
    exact serializeInCase_invariants _ _ _ _ _ h
  rw [if_neg h1] at h
  by_cases h2 : jsToLower fname = ("is")
  · rw [if_pos h2] at h
    exact serializeIsCase_invariants _ _ _ _ h
  rw [if_neg h2] at h
  by_cases h3 : jsToLower fname = ("type")
  · rw [if_pos h3] at h
    exact serializeTypeCase_invariants _ _ _ _ h
  rw [if_neg h3] at h
  by_cases h4 : jsToLower fname = ("label")
  · rw [if_pos h4] at h
    exact serializeLabelCase_invariants _ _ _ _ h
  rw [if_neg h4] at h
  by_cases h5 : jsToLower fname = ("sort")
  · rw [if_pos h5] at h
    exact serializeSortCase_invariants _ _ _ _ h
  rw [if_neg h5] at h
  by_cases h6 : jsToLower fname = ("has")
  · rw [if_pos h6] at h
    split at h
    · exact Except.noConfusion h
    · simp only [Except.ok.injEq, Prod.mk.injEq] at h
      obtain ⟨rfl, rfl⟩ := h
      refine SerInv_same_some _ _ ?_
      apply ne_nil_head
      apply ne_nil_head
      decide
  rw [if_neg h6] at h
  by_cases h7 : jsToLower fname = ("saved") ∨ jsToLower fname = ("read") ∨ jsToLower fname = ("updated") ∨ jsToLower fname = ("published")
  · rw [if_pos h7] at h
    exact serializeDateCase_invariants _ _ _ _ _ _ h
  rw [if_neg h7] at h
  by_cases h8 : jsToLower fname = ("subscription") ∨ jsToLower fname = ("rss") ∨ jsToLower fname = ("language")
  · rw [if_pos h8] at h
    exact serializeTermCase_invariants _ _ _ _ _ h
  rw [if_neg h8] at h
  by_cases h9 : jsToLower fname = ("author") ∨ jsToLower fname = ("title") ∨ jsToLower fname = ("description") ∨ jsToLower fname = ("note") ∨ jsToLower fname = ("site")
  · rw [if_pos h9] at h
    exact serializeMatchCase_invariants _ _ _ _ _ h
  rw [if_neg h9] at h
  by_cases h10 : jsToLower fname = ("includes")
  · rw [if_pos h10] at h
    exact serializeIncludesCase_invariants _ _ _ _ h
  rw [if_neg h10] at h
  by_cases h11 : jsToLower fname = ("recommendedby")
  · rw [if_pos h11] at h
    exact serializeRecommendedByCase_invariants _ _ _ _ h
  rw [if_neg h11] at h
  by_cases h12 : jsToLower fname = ("no")
  · rw [if_pos h12] at h
    split at h
    · exact Except.noConfusion h
    · simp only [Except.ok.injEq, Prod.mk.injEq] at h
      obtain ⟨rfl, rfl⟩ := h
      refine SerInv_same_some _ _ ?_
      apply handleNoCase_ne_nil <;> assumption
  rw [if_neg h12] at h
  by_cases h13 : jsToLower fname = ("use") ∨ jsToLower fname = ("mode") ∨ jsToLower fname = ("event")
  · rw [if_pos h13] at h
    simp only [Except.ok.injEq, Prod.mk.injEq] at h
    obtain ⟨rfl, rfl⟩ := h
    exact SerInv_same_none _
  rw [if_neg h13] at h
  by_cases h14 : jsToLower fname = ("readposition") ∨ jsToLower fname = ("wordscount")
  · rw [if_pos h14] at h
    exact serializeRangeCase_invariants _ _ _ _ _ h
  rw [if_neg h14] at h
  exact serializeImplicitField_invariants _ _ _ _ h

theorem serializeTagExpression_invariants (env : DateEnv) (uf : Bool) (ast : LiqeQuery)
    (st : QState) (c : Option String) (st' : QState)
    (h : serializeTagExpression env uf ast st = .ok (c, st')) :
    (GoodParams st.parameters → GoodParams st'.parameters) ∧
    (∀ s, c = some s → s.data ≠ []) := by
  cases ast with
  | logicalExpression op l r => exact Except.noConfusion h
  | unaryOperator x => exact Except.noConfusion h
  | parenthesizedExpression x => exact Except.noConfusion h
  | otherNode => exact Except.noConfusion h
  | tag field expression =>
    cases field with
    | implicitField => exact serializeImplicitField_invariants _ _ _ _ h
    | namedField fname =>
      cases expression with
      | emptyExpression =>
        replace h : (Except.ok (none, st) : Except SerializeError (Option String × QState)) = .ok (c, st') := h
        simp only [Except.ok.injEq, Prod.mk.injEq] at h
        obtain ⟨rfl, rfl⟩ := h
        exact ⟨fun hg => hg, fun s hs => by cases hs⟩
      | literalExpression value? =>
        cases value? with
        | none =>
          replace h : (Except.ok (none, st) : Except SerializeError (Option String × QState)) = .ok (c, st') := h
          simp only [Except.ok.injEq, Prod.mk.injEq] at h
          obtain ⟨rfl, rfl⟩ := h
          exact ⟨fun hg => hg, fun s hs => by cases hs⟩
        | some value => exact serializeNamedField_invariants _ _ _ _ _ _ _ h

theorem serialize_invariants (env : DateEnv) (uf : Bool) :
    ∀ (q : LiqeQuery) (st : QState) (c : Option String) (st' : QState),
      serialize env uf q st = .ok (c, st') →
      (GoodParams st.parameters → GoodParams st'.parameters) ∧
      (∀ s, c = some s → s.data ≠ []) := by
  intro q
  induction q with
  | tag field expression =>
    intro st c st' h
    exact serializeTagExpression_invariants _ _ _ _ _ _ h
  | logicalExpression op l r ihl ihr =>
    intro st c st' h
    simp only [serialize] at h
    split at h
    · exact Except.noConfusion h
    · split at h
      · exact Except.noConfusion h
      next l' st1 hL =>
        split at h
        · exact Except.noConfusion h
        next r' st2 hR =>
          have Hl := ihl st l' st1 hL
          have Hr := ihr st1 r' st2 hR
          split_ifs at h with hb1 hb2 hb3
          · simp only [Except.ok.injEq, Prod.mk.injEq] at h
            obtain ⟨rfl, rfl⟩ := h
            exact ⟨fun hg => Hr.1 (Hl.1 hg), fun s hs => by cases hs⟩
          · simp only [Except.ok.injEq, Prod.mk.injEq] at h
            obtain ⟨rfl, rfl⟩ := h
            exact ⟨fun hg => Hr.1 (Hl.1 hg), Hr.2⟩
          · simp only [Except.ok.injEq, Prod.mk.injEq] at h
            obtain ⟨rfl, rfl⟩ := h
            exact ⟨fun hg => Hr.1 (Hl.1 hg), Hl.2⟩
          · simp only [Except.ok.injEq, Prod.mk.injEq] at h
            obtain ⟨rfl, rfl⟩ := h
            refine ⟨fun hg => Hr.1 (Hl.1 hg), fun s hs => ?_⟩
            injection hs with hs
            subst hs
            apply ne_nil_head
            apply ne_nil_head
            apply ne_nil_head
            apply ne_nil_tail
            decide
  | unaryOperator x ihx =>
    intro st c st' h
    simp only [serialize] at h
    split at h
    · exact Except.noConfusion h
    next x' st1 hX =>
      have Hx := ihx st x' st1 hX
      split_ifs at h with hb
      · simp only [Except.ok.injEq, Prod.mk.injEq] at h
        obtain ⟨rfl, rfl⟩ := h
        exact ⟨Hx.1, fun s hs => by cases hs⟩
      · simp only [Except.ok.injEq, Prod.mk.injEq] at h
        obtain ⟨rfl, rfl⟩ := h
        refine ⟨Hx.1, fun s hs => ?_⟩
        injection hs with hs
        subst hs
        apply ne_nil_head
        decide
  | parenthesizedExpression x ihx =>
    intro st c st' h
    simp only [serialize] at h
    split at h
    · exact Except.noConfusion h
    next x' st1 hX =>
      have Hx := ihx st x' st1 hX
      split_ifs at h with hb
      · simp only [Except.ok.injEq, Prod.mk.injEq] at h
        obtain ⟨rfl, rfl⟩ := h
        exact ⟨Hx.1, fun s hs => by cases hs⟩
      · simp only [Except.ok.injEq, Prod.mk.injEq] at h
        obtain ⟨rfl, rfl⟩ := h
        refine ⟨Hx.1, fun s hs => ?_⟩
        injection hs with hs
        subst hs
        apply ne_nil_head
        apply ne_nil_head
        decide
  | otherNode =>
    intro st c st' h
    replace h : (Except.ok (none, st) : Except SerializeError (Option String × QState)) = .ok (c, st') := h
    simp only [Except.ok.injEq, Prod.mk.injEq] at h
    obtain ⟨rfl, rfl⟩ := h
    exact ⟨fun hg => hg, fun s hs => by cases hs⟩

theorem serialize_emptyTags (env : DateEnv) (uf : Bool) (q : LiqeQuery)
    (hq : emptyTagsWf q = true) : ∀ st, serialize env uf q st = .ok (none, st) := by
  induction q with
  | tag field expression =>
    intro st
    cases expression with
    | emptyExpression => simp [emptyTagsWf] at hq
    | literalExpression value? =>
      cases value? with
      | none => cases field <;> rfl
      | some v =>
        simp only [emptyTagsWf, beq_iff_eq] at hq
        subst hq
        cases field <;> rfl
  | logicalExpression op l r ihl ihr =>
    simp only [emptyTagsWf, Bool.and_eq_true, Bool.or_eq_true, beq_iff_eq] at hq
    obtain ⟨⟨hop, hl⟩, hr⟩ := hq
    intro st
    rcases hop with hop | hop <;> subst hop <;>
      simp [serialize, ihl hl, ihr hr, jsFalsy]
  | unaryOperator x ihx =>
    simp only [emptyTagsWf] at hq
    intro st
    simp [serialize, ihx hq, jsFalsy]
  | parenthesizedExpression x ihx =>
    simp only [emptyTagsWf] at hq
    intro st
    simp [serialize, ihx hq, jsFalsy]
  | otherNode => simp [emptyTagsWf] at hq

theorem jsSplitAux_ne_nil (sep : List Char) :
    ∀ (fuel : Nat) (cs acc : List Char), jsSplitAux sep fuel cs acc ≠ [] := by
  intro fuel
  induction fuel with
  | zero =>
    intro cs acc
    cases cs <;> simp [jsSplitAux]
  | succ fuel ih =>
    intro cs acc
    cases cs with
    | nil => simp [jsSplitAux]
    | cons c rest =>
      rw [jsSplitAux]
      split
      · simp
      · exact ih rest (c :: acc)

theorem jsSplit_ne_nil (sep s : String) : jsSplit sep s ≠ [] := by
  intro hc
  rw [jsSplit] at hc
  exact jsSplitAux_ne_nil sep.data s.data.length s.data [] (List.map_eq_nil_iff.mp hc)

theorem jsFalsy_eq_isNone (x : Option String) (hx : ∀ s, x = some s → s.data ≠ []) :
    jsFalsy x = x.isNone := by
  cases x with
  | none => rfl
  | some s =>
    simp only [jsFalsy, Option.isNone_some]
    rw [beq_eq_false_iff_ne]
    intro hc
    exact hx s rfl (congrArg String.data hc)

/-- C9: for every expression tree built entirely from tags whose
literal value is empty or absent (with well-formed liqe `AND`/`OR`
connectives), compilation from the initial search state returns a null
predicate, binds no parameters, and adds no select columns and no
sorts, so that the final sort list produced by `searchLibraryItems` is
exactly the default descending nulls-last sort on the saved-date
column. -/
theorem empty_tags_only_default_sort (env : DateEnv) (uf : Bool) (q : LiqeQuery)
    (sl : List Select) (hq : emptyTagsWf q = true) :
    buildQuery env q uf ⟨[], sl, []⟩ = .ok (none, ⟨[], sl, []⟩) ∧
    finalizeOrders [] =
      [⟨("library_item.saved_at"), some SortOrder.descending, some ("NULLS LAST")⟩] :=
  ⟨serialize_emptyTags env uf q hq ⟨[], sl, []⟩, rfl⟩

/-- Witness for C9 on the tree `AND(label:"", NOT <empty free text>)`. -/
theorem empty_tags_only_default_sort_witness :
    buildQuery dateEnv0 (.logicalExpression ("AND")
        (.tag (.namedField ("label")) (.literalExpression (some (""))))
        (.unaryOperator (.tag .implicitField (.literalExpression none)))) false ⟨[], [], []⟩ =
      .ok (none, ⟨[], [], []⟩) :=
  (empty_tags_only_default_sort dateEnv0 false _ [] (by decide)).1

/-- C3: for every input expression tree, all parameter names
registered during one compile call (which starts from an empty
parameter table) are pairwise distinct, and each name is a semantic
prefix, an underscore, and the decimal count of parameter objects
bound before it. Determinism of the naming is immediate since
`buildQuery` is a pure function of its inputs. -/
theorem param_names_unique (env : DateEnv) (q : LiqeQuery) (uf : Bool)
    (sl : List Select) (ors : List SortKey) (c : Option String) (st' : QState)
    (h : buildQuery env q uf ⟨[], sl, ors⟩ = .ok (c, st')) :
    (paramNames st'.parameters).Nodup ∧
    ∀ k, (hk : k < st'.parameters.length) →
      ∀ e ∈ st'.parameters[k], goodEntryName k e.1 := by
  have hg := (serialize_invariants env uf q ⟨[], sl, ors⟩ c st' h).1 GoodParams.nil
  exact ⟨GoodParams.nodup _ hg, fun k hk e he => (hg k hk).2 e he⟩

/-- Witness for C3: two occurrences of the same keyword
(`label:a AND label:a`) bind the distinct names `label_0`,`label_1`. -/
theorem param_names_unique_witness :
    (paramNames [[(("label_0"), QValue.vstr ("a"))], [(("label_1"), QValue.vstr ("a"))]]).Nodup := by
  have h := (param_names_unique dateEnv0 (.logicalExpression ("AND")
    (.tag (.namedField ("label")) (.literalExpression (some ("a"))))
    (.tag (.namedField ("label")) (.literalExpression (some ("a"))))) false [] [] _ _ rfl).1
  exact h

/-- C5: compiling `AND(L,R)` or `OR(L,R)` obeys null absorption (both
sides null gives null, one null side gives the other side unmodified,
otherwise the clauses joined with the operator); any other logical
operator is the invalid-operator error, raised before either side is
compiled; `NOT X` yields null when `X` does and otherwise wraps the
clause in `NOT`; a parenthesized expression yields null when the inner
clause is null and otherwise wraps it in parentheses. -/
theorem logical_null_absorption (env : DateEnv) (uf : Bool) (L R : LiqeQuery) (op : String)
    (st s1 s2 : QState) (l r : Option String)
    (hL : serialize env uf L st = .ok (l, s1))
    (hR : serialize env uf R s1 = .ok (r, s2)) :
    ((op = ("AND") ∨ op = ("OR")) →
      serialize env uf (.logicalExpression op L R) st =
        .ok ((match l, r with
              | none, none => none
              | none, some rr => some rr
              | some ll, none => some ll
              | some ll, some rr => some (ll ++ (" ") ++ op ++ (" ") ++ rr)), s2)) ∧
    ((op ≠ ("AND") ∧ op ≠ ("OR")) →
      serialize env uf (.logicalExpression op L R) st = .error .unexpectedOperator) ∧
    (serialize env uf (.unaryOperator L) st =
      .ok (l.map (fun s => ("NOT ") ++ s), s1)) ∧
    (serialize env uf (.parenthesizedExpression L) st =
      .ok (l.map (fun s => ("(") ++ s ++ (")")), s1)) := by
  have hfl := jsFalsy_eq_isNone l (serialize_invariants env uf L st l s1 hL).2
  have hfr := jsFalsy_eq_isNone r (serialize_invariants env uf R s1 r s2 hR).2
  refine ⟨?_, ?_, ?_, ?_⟩
  · intro hop
    rcases hop with hop | hop <;> subst hop <;>
      cases l <;> cases r <;>
        simp [serialize, hL, hR, jsFalsy] <;>
          simp_all [jsFalsy]
  · rintro ⟨h1, h2⟩
    simp only [serialize]
    rw [if_neg h1, if_neg h2]
  · cases l <;> simp [serialize, hL, jsFalsy] <;> simp_all [jsFalsy]
  · cases l <;> simp [serialize, hL, jsFalsy] <;> simp_all [jsFalsy]

/-- Witness for C5: `AND` of an archive filter and a null-producing
node compiles to the archive clause alone. -/
theorem logical_null_absorption_witness :
    serialize dateEnv0 false (.logicalExpression ("AND")
        (.tag (.namedField ("in")) (.literalExpression (some ("archive")))) .otherNode)
        ⟨[], [], []⟩ =
      .ok (some ("library_item.archived_at IS NOT NULL"), ⟨[], [], []⟩) := by
  have h := (logical_null_absorption dateEnv0 false
    (.tag (.namedField ("in")) (.literalExpression (some ("archive")))) .otherNode ("AND")
    ⟨[], [], []⟩ ⟨[], [], []⟩ ⟨[], [], []⟩
    (some ("library_item.archived_at IS NOT NULL")) none rfl rfl).1 (Or.inl rfl)
  exact h

theorem namedField_dispatch_includes (env : DateEnv) (uf : Bool) (value : String) (st : QState)
    (hv : value ≠ ("")) :
    serializeNamedField env uf ("includes") value st = serializeIncludesCase value st := by
  simp only [serializeNamedField]
  rw [if_neg hv]
  rfl

/-- C1 (amended): an `includes` tag whose value is empty is ignored
(null, no error, the unreachable empty-id-list check never fires); for
every non-empty value the compiler splits it on commas into a
(necessarily non-empty) id list and returns the id-equals-any clause,
binding the list as one parameter. -/
theorem includes_rule (env : DateEnv) (uf : Bool) (value : String) (st : QState) :
    (serializeTagExpression env uf (.tag (.namedField ("includes"))
        (.literalExpression (some ("")))) st = .ok (none, st)) ∧
    (value ≠ ("") →
      serializeTagExpression env uf (.tag (.namedField ("includes"))
          (.literalExpression (some value))) st =
        .ok (some (("library_item.id = ANY(:") ++ mkName ("includes") st.parameters.length ++ (")")),
             pushParam st [(mkName ("includes") st.parameters.length,
               QValue.vlist (jsSplit (",") value))])) := by
  constructor
  · rfl
  · intro hv
    rw [show serializeTagExpression env uf (.tag (.namedField ("includes"))
        (.literalExpression (some value))) st = serializeNamedField env uf ("includes") value st
      from rfl]
    rw [namedField_dispatch_includes env uf value st hv]
    simp only [serializeIncludesCase]
    rw [if_neg (by
      rw [List.length_eq_zero]
      exact jsSplit_ne_nil (",") value)]
    rfl

/-- C1 counterexample: `includes:` with an empty value compiles to the
null predicate without raising any error, contradicting the claim
that an empty `includes` value raises the empty-id-list error. -/
theorem includes_empty_ignored_cex :
    serializeTagExpression dateEnv0 false (.tag (.namedField ("includes"))
        (.literalExpression (some ("")))) ⟨[], [], []⟩ = .ok (none, ⟨[], [], []⟩) ∧
    serializeTagExpression dateEnv0 false (.tag (.namedField ("includes"))
        (.literalExpression (some ("")))) ⟨[], [], []⟩ ≠ .error .expectedIds :=
  ⟨rfl, by
    intro hc
    have hc' : (Except.ok (none, (⟨[], [], []⟩ : QState)) :
        Except SerializeError (Option String × QState)) = .error .expectedIds := hc
    exact Except.noConfusion hc'⟩

/-- Witness for C1 on `includes:a,b`. -/
theorem includes_rule_witness :
    serializeTagExpression dateEnv0 false (.tag (.namedField ("includes"))
        (.literalExpression (some ("a,b")))) ⟨[], [], []⟩ =
      .ok (some ("library_item.id = ANY(:includes_0)"),
           ⟨[[(("includes_0"), QValue.vlist [("a"), ("b")])]], [], []⟩) := by
  have h := (includes_rule dateEnv0 false ("a,b") ⟨[], [], []⟩).2 (by decide)
  exact h

theorem find?_beq_self (l : List String) (x : String) (hx : x ∈ l) :
    l.find? (fun sb => sb == x) = some x := by
  induction l with
  | nil => cases hx
  | cons a l ih =>
    by_cases h : a = x
    · subst h
      simp [List.find?]
    · have hb : (a == x) = false := beq_eq_false_iff_ne.mpr h
      simp only [List.find?, hb]
      rcases List.mem_cons.mp hx with hx | hx
      · exact absurd hx.symm h
      · exact ih hx

theorem serializeSortCase_eq (value : String) (st : QState) :
    (((jsSplit ("-") (jsToLower value)).headD ("") ∉ sortByValues) →
      serializeSortCase value st = .ok (none, st)) ∧
    (∀ column, ((jsSplit ("-") (jsToLower value)).headD ("") ∈ sortByValues) →
      getColumnName ((jsSplit ("-") (jsToLower value)).headD ("")) = .ok column →
      serializeSortCase value st =
        .ok (none, pushOrder st ⟨("library_item.") ++ column,
          some (if (jsSplit ("-") (jsToLower value)).get? 1 = some ("asc")
                then SortOrder.ascending else SortOrder.descending),
          some (if (jsSplit ("-") (jsToLower value)).get? 1 = some ("asc")
                then ("NULLS FIRST") else ("NULLS LAST"))⟩)) := by
  constructor
  · intro hmem
    simp only [serializeSortCase]
    rw [List.find?_eq_none.mpr (fun x hx => by
      intro hb
      exact hmem ((beq_iff_eq.mp hb) ▸ hx))]
  · intro column hmem hcol
    simp only [serializeSortCase]
    simp only [find?_beq_self _ _ hmem, hcol]
    by_cases hasc : (jsSplit ("-") (jsToLower value)).get? 1 = some ("asc") <;>
      simp [hasc]

theorem finalizeOrders_eq (ors : List SortKey) :
    ((∃ o ∈ ors, o.by_ = ("library_item.saved_at")) → finalizeOrders ors = ors) ∧
    ((∀ o ∈ ors, o.by_ ≠ ("library_item.saved_at")) →
      finalizeOrders ors = ors ++
        [⟨("library_item.saved_at"), some SortOrder.descending, some ("NULLS LAST")⟩]) := by
  constructor
  · rintro ⟨o, ho, hby⟩
    rw [finalizeOrders, if_pos]
    rw [List.find?_isSome]
    exact ⟨o, ho, beq_iff_eq.mpr hby⟩
  · intro hall
    rw [finalizeOrders, if_neg]
    rw [List.find?_isSome]
    rintro ⟨o, ho, hb⟩
    exact hall o ho (beq_iff_eq.mp hb)

/-- C4: a `sort` tag parses its value as `field-direction`; an
unrecognized sort key is silently ignored (null returned, no directive
added); a recognized one registers a sort on the mapped column
(ascending with nulls-first exactly for the `asc` direction component,
descending with nulls-last otherwise) and still returns null, so a
sort directive never contributes to the predicate. The default
descending nulls-last sort on the saved-date column is appended by
`searchLibraryItems` exactly when no accumulated order targets that
column, after all explicit sorts. -/
theorem sort_directive_rule (env : DateEnv) (uf : Bool) (value : String) (st : QState)
    (hv : value ≠ ("")) :
    (((jsSplit ("-") (jsToLower value)).headD ("") ∉ sortByValues) →
      serializeTagExpression env uf (.tag (.namedField ("sort"))
          (.literalExpression (some value))) st = .ok (none, st)) ∧
    (∀ column, ((jsSplit ("-") (jsToLower value)).headD ("") ∈ sortByValues) →
      getColumnName ((jsSplit ("-") (jsToLower value)).headD ("")) = .ok column →
      serializeTagExpression env uf (.tag (.namedField ("sort"))
          (.literalExpression (some value))) st =
        .ok (none, pushOrder st ⟨("library_item.") ++ column,
          some (if (jsSplit ("-") (jsToLower value)).get? 1 = some ("asc")
                then SortOrder.ascending else SortOrder.descending),
          some (if (jsSplit ("-") (jsToLower value)).get? 1 = some ("asc")
                then ("NULLS FIRST") else ("NULLS LAST"))⟩)) ∧
    (∀ ors : List SortKey,
      ((∃ o ∈ ors, o.by_ = ("library_item.saved_at")) → finalizeOrders ors = ors) ∧
      ((∀ o ∈ ors, o.by_ ≠ ("library_item.saved_at")) →
        finalizeOrders ors = ors ++
          [⟨("library_item.saved_at"), some SortOrder.descending, some ("NULLS LAST")⟩])) := by
  have hbr : serializeTagExpression env uf (.tag (.namedField ("sort"))
      (.literalExpression (some value))) st = serializeSortCase value st := by
    rw [show serializeTagExpression env uf (.tag (.namedField ("sort"))
        (.literalExpression (some value))) st = serializeNamedField env uf ("sort") value st
      from rfl]
    simp only [serializeNamedField]
    rw [if_neg hv]
    rfl
  refine ⟨?_, ?_, finalizeOrders_eq⟩
  · intro hmem
    rw [hbr]
    exact (serializeSortCase_eq value st).1 hmem
  · intro column hmem hcol
    rw [hbr]
    exact (serializeSortCase_eq value st).2 column hmem hcol

/-- Witness for C4: `sort:saved-asc` registers the ascending
nulls-first sort on the saved-date column and returns null. -/
theorem sort_directive_rule_witness :
    serializeTagExpression dateEnv0 false (.tag (.namedField ("sort"))
        (.literalExpression (some ("saved-asc")))) ⟨[], [], []⟩ =
      .ok (none, ⟨[], [],
        [⟨("library_item.saved_at"), some SortOrder.ascending, some ("NULLS FIRST")⟩]⟩) := by
  have h := (sort_directive_rule dateEnv0 false ("saved-asc") ⟨[], [], []⟩ (by decide)).2.1
    ("saved_at") (by decide) rfl
  exact h

/-- C10 (amended): for a `sort` tag with a recognized sort key, the
registered direction is ascending with nulls-first exactly when the
second hyphen-separated component of the lower-cased value is the
string `asc`; every other case (including `desc`, a misspelling, a
missing component, or extra text after a second hyphen) yields a
descending nulls-last sort, never an error. -/
theorem sort_direction_rule (env : DateEnv) (uf : Bool) (value : String) (st : QState)
    (column : String) (hv : value ≠ (""))
    (hmem : (jsSplit ("-") (jsToLower value)).headD ("") ∈ sortByValues)
    (hcol : getColumnName ((jsSplit ("-") (jsToLower value)).headD ("")) = .ok column) :
    serializeTagExpression env uf (.tag (.namedField ("sort"))
        (.literalExpression (some value))) st =
      .ok (none, pushOrder st ⟨("library_item.") ++ column,
        some (if (jsSplit ("-") (jsToLower value)).get? 1 = some ("asc")
              then SortOrder.ascending else SortOrder.descending),
        some (if (jsSplit ("-") (jsToLower value)).get? 1 = some ("asc")
              then ("NULLS FIRST") else ("NULLS LAST"))⟩) := by
  rw [show serializeTagExpression env uf (.tag (.namedField ("sort"))
      (.literalExpression (some value))) st = serializeNamedField env uf ("sort") value st
    from rfl]
  rw [show serializeNamedField env uf ("sort") value st =
      (if value = ("") then .ok (none, st) else serializeSortCase value st) from rfl]
  rw [if_neg hv]
  exact (serializeSortCase_eq value st).2 column hmem hcol

/-- C10 counterexample: in `sort:saved-asc-x` the part after the first
hyphen is `asc-x`, which is not `asc`, so the claim as stated predicts
a descending sort; the code only inspects the second hyphen-separated
component and registers an ascending nulls-first sort. -/
theorem sort_direction_cex :
    serializeTagExpression dateEnv0 false (.tag (.namedField ("sort"))
        (.literalExpression (some ("saved-asc-x")))) ⟨[], [], []⟩ =
      .ok (none, ⟨[], [],
        [⟨("library_item.saved_at"), some SortOrder.ascending, some ("NULLS FIRST")⟩]⟩) := rfl

/-- Witness for C10: `sort:updated-ASC` (case-insensitive direction)
yields the ascending nulls-first sort on the updated-date column. -/
theorem sort_direction_rule_witness :
    serializeTagExpression dateEnv0 false (.tag (.namedField ("sort"))
        (.literalExpression (some ("updated-ASC")))) ⟨[], [], []⟩ =
      .ok (none, ⟨[], [],
        [⟨("library_item.updated_at"), some SortOrder.ascending, some ("NULLS FIRST")⟩]⟩) := by
  have h := sort_direction_rule dateEnv0 false ("updated-ASC") ⟨[], [], []⟩ ("updated_at")
    (by decide) (by decide) rfl
  exact h

theorem findComparator_cons (c : Char) (rest : List Char) :
    findComparator (c :: rest) =
      if c = '<' ∨ c = '>' then
        match rest with
        | d :: rest2 =>
          if d = '=' then some ([], [c, '='], rest2) else some ([], [c], d :: rest2)
        | [] => some ([], [c], [])
      else
        match findComparator rest with
        | none => none
        | some (bef, op, aft) => some (c :: bef, op, aft) := rfl

theorem findComparator_eq_none_iff (cs : List Char) :
    findComparator cs = none ↔ ∀ ch ∈ cs, ch ≠ '<' ∧ ch ≠ '>' := by
  induction cs with
  | nil => simp [findComparator]
  | cons c rest ih =>
    rw [findComparator_cons]
    by_cases hc : c = '<' ∨ c = '>'
    · rw [if_pos hc]
      constructor
      · intro h
        exfalso
        cases rest with
        | nil => exact Option.noConfusion h
        | cons d r2 =>
          split at h <;>
            first
            | exact Option.noConfusion h
            | (split at h <;> exact Option.noConfusion h)
      · intro h
        exact absurd hc (by
          have := h c (List.mem_cons_self c rest)
          rintro (hcc | hcc)
          · exact this.1 hcc
          · exact this.2 hcc)
    · rw [if_neg hc]
      push_neg at hc
      cases hrec : findComparator rest with
      | none =>
        constructor
        · intro _ ch hch
          rcases List.mem_cons.mp hch with hch | hch
          · subst hch
            exact hc
          · exact (ih.mp hrec) ch hch
        · intro _
          rfl
      | some p =>
        obtain ⟨b2, o2, a2⟩ := p
        constructor
        · intro h
          exact Option.noConfusion h
        · intro hall
          exact absurd (ih.mpr (fun ch hch => hall ch (List.mem_cons_of_mem c hch)))
            (by rw [hrec]; exact fun hx => Option.noConfusion hx)

theorem namedField_dispatch_range (env : DateEnv) (uf : Bool) (fname value : String)
    (st : QState) (hv : value ≠ (""))
    (hn : jsToLower fname = ("readposition") ∨ jsToLower fname = ("wordscount")) :
    serializeNamedField env uf fname value st = serializeRangeCase fname value st := by
  simp only [serializeNamedField]
  rw [if_neg hv,
    if_neg (by rcases hn with h | h <;> rw [h] <;> decide),
    if_neg (by rcases hn with h | h <;> rw [h] <;> decide),
    if_neg (by rcases hn with h | h <;> rw [h] <;> decide),
    if_neg (by rcases hn with h | h <;> rw [h] <;> decide),
    if_neg (by rcases hn with h | h <;> rw [h] <;> decide),
    if_neg (by rcases hn with h | h <;> rw [h] <;> decide),
    if_neg (by rcases hn with h | h <;> rw [h] <;> decide),
    if_neg (by rcases hn with h | h <;> rw [h] <;> decide),
    if_neg (by rcases hn with h | h <;> rw [h] <;> decide),
    if_neg (by rcases hn with h | h <;> rw [h] <;> decide),
    if_neg (by rcases hn with h | h <;> rw [h] <;> decide),
    if_neg (by rcases hn with h | h <;> rw [h] <;> decide),
    if_neg (by rcases hn with h | h <;> rw [h] <;> decide),
    if_pos hn]

/-- C2 (amended): for a `readposition` or `wordscount` tag the
compiler requires a comparator (`<`, `>`, `<=`, `>=`) somewhere in the
value, raising the invalid-operator error exactly when no comparator
character occurs; when one is present, the first occurrence is taken
as the operator and stripped (it need not be leading), the remainder
is parsed as an integer, and the result is a comparison clause of that
operator against the mapped column with the integer bound as one
parameter. -/
theorem numeric_range_rule (env : DateEnv) (uf : Bool) (fname value : String) (st : QState)
    (column : String) (hv : value ≠ (""))
    (hn : jsToLower fname = ("readposition") ∨ jsToLower fname = ("wordscount"))
    (hcol : getColumnName fname = .ok column) :
    (findComparator value.data = none →
      serializeTagExpression env uf (.tag (.namedField fname)
          (.literalExpression (some value))) st = .error .expectedOperator) ∧
    (∀ bef op aft, findComparator value.data = some (bef, op, aft) →
      serializeTagExpression env uf (.tag (.namedField fname)
          (.literalExpression (some value))) st =
        .ok (some (("library_item.") ++ column ++ (" ") ++ String.mk op ++ (" :") ++
              mkName (("range_") ++ fname) st.parameters.length),
             pushParam st [(mkName (("range_") ++ fname) st.parameters.length,
               QValue.vnum (jsParseInt (String.mk (bef ++ aft))))])) ∧
    (findComparator value.data = none ↔ ∀ ch ∈ value.data, ch ≠ '<' ∧ ch ≠ '>') := by
  have hbr : serializeTagExpression env uf (.tag (.namedField fname)
      (.literalExpression (some value))) st = serializeRangeCase fname value st := by
    rw [show serializeTagExpression env uf (.tag (.namedField fname)
        (.literalExpression (some value))) st = serializeNamedField env uf fname value st
      from rfl]
    exact namedField_dispatch_range env uf fname value st hv hn
  refine ⟨?_, ?_, findComparator_eq_none_iff value.data⟩
  · intro hnone
    rw [hbr]
    simp only [serializeRangeCase, hcol, hnone]
  · intro bef op aft hsome
    rw [hbr]
    simp only [serializeRangeCase, hcol, hsome]
    rfl

/-- C2 counterexample: in `wordscount:100<` the comparator is not
leading (the value does not start with `<` or `>`), yet compilation
succeeds, using the first comparator occurrence; so a leading
comparator is not required. -/
theorem comparator_not_leading_cex :
    serializeTagExpression dateEnv0 false (.tag (.namedField ("wordscount"))
        (.literalExpression (some ("100<")))) ⟨[], [], []⟩ =
      .ok (some ("library_item.word_count < :range_wordscount_0"),
        ⟨[[(("range_wordscount_0"), QValue.vnum (some 100))]], [], []⟩) ∧
    ¬ (("100<").data.headD ' ' = '<' ∨ ("100<").data.headD ' ' = '>') :=
  ⟨rfl, by decide⟩

/-- Witness for C2: `wordscount:>100` compiles to a `>` comparison on
`word_count` with the integer 100 bound as one parameter. -/
theorem numeric_range_rule_witness :
    serializeTagExpression dateEnv0 false (.tag (.namedField ("wordscount"))
        (.literalExpression (some (">100")))) ⟨[], [], []⟩ =
      .ok (some ("library_item.word_count > :range_wordscount_0"),
        ⟨[[(("range_wordscount_0"), QValue.vnum (some 100))]], [], []⟩) := by
  have h := (numeric_range_rule dateEnv0 false ("wordscount") (">100") ⟨[], [], []⟩
    ("word_count") (by decide) (Or.inr rfl) rfl).2.1 [] ['>'] [('1'), ('0'), ('0')] rfl
  exact h

theorem namedField_dispatch_date (env : DateEnv) (uf : Bool) (fname value : String)
    (st : QState) (hv : value ≠ (""))
    (hn : jsToLower fname = ("saved") ∨ jsToLower fname = ("read") ∨
      jsToLower fname = ("updated") ∨ jsToLower fname = ("published")) :
    serializeNamedField env uf fname value st = serializeDateCase env fname value st := by
  simp only [serializeNamedField]
  rw [if_neg hv,
    if_neg (by rcases hn with h | h | h | h <;> rw [h] <;> decide),
    if_neg (by rcases hn with h | h | h | h <;> rw [h] <;> decide),
    if_neg (by rcases hn with h | h | h | h <;> rw [h] <;> decide),
    if_neg (by rcases hn with h | h | h | h <;> rw [h] <;> decide),
    if_neg (by rcases hn with h | h | h | h <;> rw [h] <;> decide),
    if_neg (by rcases hn with h | h | h | h <;> rw [h] <;> decide),
    if_pos hn]

/-- Resolution of one bound of a date range: an empty or wildcard
bound is open (`none`); any other bound parses successfully. -/
def resolvesTo (p : String → Option Int) (b : String) (r : Option Int) : Prop :=
  ((b = ("") ∨ b = ("*")) ∧ r = none) ∨
  (¬(b = ("") ∨ b = ("*")) ∧ p b = r ∧ r ≠ none)

/-- C6: for every date-field tag (`saved`, `read`, `updated`,
`published`), the special values `today`, `yesterday`, `this week`,
`this month` resolve to concrete start/end instants of the ambient
clock; any other value is parsed as a `start..end` range whose bounds
may each be `*` or missing (open), an unparseable non-wildcard bound
raises the invalid-date error, and the result is a BETWEEN clause on
the `<field>_at` column (which for these lower-case field keywords is
exactly the column the catalog maps them to) with two freshly bound
date parameters, a missing start defaulting to the epoch (0) and a
missing end defaulting to now. -/
theorem date_field_rule (env : DateEnv) (uf : Bool) (fname value : String) (st : QState)
    (hv : value ≠ (""))
    (hn : jsToLower fname = ("saved") ∨ jsToLower fname = ("read") ∨
      jsToLower fname = ("updated") ∨ jsToLower fname = ("published")) :
    (jsToLower value = ("today") →
      serializeTagExpression env uf (.tag (.namedField fname)
          (.literalExpression (some value))) st =
        .ok (some (("library_item.") ++ fname ++ ("_at BETWEEN :") ++
              mkName (fname ++ ("_start")) st.parameters.length ++ (" AND :") ++
              mkName (fname ++ ("_end")) st.parameters.length),
          pushParam st [(mkName (fname ++ ("_start")) st.parameters.length,
              QValue.vdate env.startOfToday),
            (mkName (fname ++ ("_end")) st.parameters.length, QValue.vdate env.now)])) ∧
    (jsToLower value = ("yesterday") →
      serializeTagExpression env uf (.tag (.namedField fname)
          (.literalExpression (some value))) st =
        .ok (some (("library_item.") ++ fname ++ ("_at BETWEEN :") ++
              mkName (fname ++ ("_start")) st.parameters.length ++ (" AND :") ++
              mkName (fname ++ ("_end")) st.parameters.length),
          pushParam st [(mkName (fname ++ ("_start")) st.parameters.length,
              QValue.vdate env.startOfYesterday),
            (mkName (fname ++ ("_end")) st.parameters.length,
              QValue.vdate env.endOfYesterday)])) ∧
    (jsToLower value = ("this week") →
      serializeTagExpression env uf (.tag (.namedField fname)
          (.literalExpression (some value))) st =
        .ok (some (("library_item.") ++ fname ++ ("_at BETWEEN :") ++
              mkName (fname ++ ("_start")) st.parameters.length ++ (" AND :") ++
              mkName (fname ++ ("_end")) st.parameters.length),
          pushParam st [(mkName (fname ++ ("_start")) st.parameters.length,
              QValue.vdate env.startOfWeek),
            (mkName (fname ++ ("_end")) st.parameters.length, QValue.vdate env.now)])) ∧
    (jsToLower value = ("this month") →
      serializeTagExpression env uf (.tag (.namedField fname)
          (.literalExpression (some value))) st =
        .ok (some (("library_item.") ++ fname ++ ("_at BETWEEN :") ++
              mkName (fname ++ ("_start")) st.parameters.length ++ (" AND :") ++
              mkName (fname ++ ("_end")) st.parameters.length),
          pushParam st [(mkName (fname ++ ("_start")) st.parameters.length,
              QValue.vdate env.startOfMonth),
            (mkName (fname ++ ("_end")) st.parameters.length, QValue.vdate env.now)])) ∧
    (jsToLower value ∉ [("today"), ("yesterday"), ("this week"), ("this month")] →
      (¬((jsSplit ("..") value).headD ("") = ("") ∨ (jsSplit ("..") value).headD ("") = ("*")) →
        env.parseDate ((jsSplit ("..") value).headD ("")) = none →
        serializeTagExpression env uf (.tag (.namedField fname)
            (.literalExpression (some value))) st = .error .invalidStartDate) ∧
      (∀ sd, resolvesTo env.parseDate ((jsSplit ("..") value).headD ("")) sd →
        ¬((((jsSplit ("..") value).get? 1).getD ("")) = ("") ∨
          (((jsSplit ("..") value).get? 1).getD ("")) = ("*")) →
        env.parseDate (((jsSplit ("..") value).get? 1).getD ("")) = none →
        serializeTagExpression env uf (.tag (.namedField fname)
            (.literalExpression (some value))) st = .error .invalidEndDate) ∧
      (∀ sd ed, resolvesTo env.parseDate ((jsSplit ("..") value).headD ("")) sd →
        resolvesTo env.parseDate (((jsSplit ("..") value).get? 1).getD ("")) ed →
        serializeTagExpression env uf (.tag (.namedField fname)
            (.literalExpression (some value))) st =
          .ok (some (("library_item.") ++ fname ++ ("_at BETWEEN :") ++
                mkName (fname ++ ("_start")) st.parameters.length ++ (" AND :") ++
                mkName (fname ++ ("_end")) st.parameters.length),
            pushParam st [(mkName (fname ++ ("_start")) st.parameters.length,
                QValue.vdate (sd.getD 0)),
              (mkName (fname ++ ("_end")) st.parameters.length,
                QValue.vdate (ed.getD env.now))]))) := by
  have hbr : serializeTagExpression env uf (.tag (.namedField fname)
      (.literalExpression (some value))) st = serializeDateCase env fname value st := by
    rw [show serializeTagExpression env uf (.tag (.namedField fname)
        (.literalExpression (some value))) st = serializeNamedField env uf fname value st
      from rfl]
    exact namedField_dispatch_date env uf fname value st hv hn
  refine ⟨?_, ?_, ?_, ?_, ?_⟩
  · intro hlv
    rw [hbr]
    simp only [serializeDateCase, hlv]
    rfl
  · intro hlv
    rw [hbr]
    simp only [serializeDateCase, hlv]
    rfl
  · intro hlv
    rw [hbr]
    simp only [serializeDateCase, hlv]
    rfl
  · intro hlv
    rw [hbr]
    simp only [serializeDateCase, hlv]
    rfl
  · intro hns
    have hn1 : jsToLower value ≠ ("today") := fun hc => hns (by rw [hc]; decide)
    have hn2 : jsToLower value ≠ ("yesterday") := fun hc => hns (by rw [hc]; decide)
    have hn3 : jsToLower value ≠ ("this week") := fun hc => hns (by rw [hc]; decide)
    have hn4 : jsToLower value ≠ ("this month") := fun hc => hns (by rw [hc]; decide)
    refine ⟨?_, ?_, ?_⟩
    · intro hopen hparse
      rw [hbr]
      simp only [serializeDateCase, if_neg hn1, if_neg hn2, if_neg hn3, if_neg hn4,
        if_neg hopen, hparse]
    · intro sd hsd hopen hparse
      rw [hbr]
      simp only [serializeDateCase, if_neg hn1, if_neg hn2, if_neg hn3, if_neg hn4]
      rcases hsd with ⟨ho, rfl⟩ | ⟨ho, hp, hne⟩
      · simp only [if_pos ho, if_neg hopen, hparse]
      · cases sd with
        | none => exact absurd rfl hne
        | some d => simp only [if_neg ho, hp, if_neg hopen, hparse]
    · intro sd ed hsd hed
      rw [hbr]
      simp only [serializeDateCase, if_neg hn1, if_neg hn2, if_neg hn3, if_neg hn4]
      rcases hsd with ⟨ho, rfl⟩ | ⟨ho, hp, hne⟩
      · rcases hed with ⟨ho2, rfl⟩ | ⟨ho2, hp2, hne2⟩
        · simp only [if_pos ho, if_pos ho2]
          rfl
        · cases ed with
          | none => exact absurd rfl hne2
          | some d2 =>
            simp only [if_pos ho, if_neg ho2, hp2]
            rfl
      · cases sd with
        | none => exact absurd rfl hne
        | some d =>
          rcases hed with ⟨ho2, rfl⟩ | ⟨ho2, hp2, hne2⟩
          · simp only [if_neg ho, hp, if_pos ho2]
            rfl
          · cases ed with
            | none => exact absurd rfl hne2
            | some d2 =>
              simp only [if_neg ho, hp, if_neg ho2, hp2]
              rfl

/-- Witness for C6: with a clock whose start-of-day is 500 and now is
1000, `saved:today` compiles to BETWEEN start-of-day and now; with a
parser mapping the two bounds to 100 and 200,
`saved:2023-01-01..2023-01-31` compiles to BETWEEN exactly those two
instants. -/
theorem date_field_rule_witness :
    serializeTagExpression ⟨1000, 500, 2, 3, 4, 5, fun _ => none⟩ false
        (.tag (.namedField ("saved")) (.literalExpression (some ("today")))) ⟨[], [], []⟩ =
      .ok (some ("library_item.saved_at BETWEEN :saved_start_0 AND :saved_end_0"),
        ⟨[[(("saved_start_0"), QValue.vdate 500), (("saved_end_0"), QValue.vdate 1000)]],
          [], []⟩) ∧
    serializeTagExpression ⟨1000, 500, 2, 3, 4, 5,
        fun s => if s = ("2023-01-01") then some 100
          else if s = ("2023-01-31") then some 200 else none⟩ false
        (.tag (.namedField ("saved"))
          (.literalExpression (some ("2023-01-01..2023-01-31")))) ⟨[], [], []⟩ =
      .ok (some ("library_item.saved_at BETWEEN :saved_start_0 AND :saved_end_0"),
        ⟨[[(("saved_start_0"), QValue.vdate 100), (("saved_end_0"), QValue.vdate 200)]],
          [], []⟩) := by
  constructor
  · have h := (date_field_rule ⟨1000, 500, 2, 3, 4, 5, fun _ => none⟩ false ("saved")
      ("today") ⟨[], [], []⟩ (by decide) (Or.inl rfl)).1 rfl
    exact h
  · have h := ((date_field_rule ⟨1000, 500, 2, 3, 4, 5,
      fun s => if s = ("2023-01-01") then some 100
        else if s = ("2023-01-31") then some 200 else none⟩ false ("saved")
      ("2023-01-01..2023-01-31") ⟨[], [], []⟩ (by decide) (Or.inl rfl)).2.2.2.2
      (by decide)).2.2 (some 100) (some 200)
      (Or.inr (by refine ⟨by decide, rfl, by decide⟩))
      (Or.inr (by refine ⟨by decide, rfl, by decide⟩))
    exact h

/-- The field keywords handled by an explicit arm of the dispatch
`switch` in `serializeTagExpression`. -/
def knownFieldNames : List String :=
  [("in"), ("is"), ("type"), ("label"), ("sort"), ("has"),
   ("saved"), ("read"), ("updated"), ("published"),
   ("subscription"), ("rss"), ("language"),
   ("author"), ("title"), ("description"), ("note"), ("site"),
   ("includes"), ("recommendedby"), ("no"), ("use"), ("mode"), ("event"),
   ("readposition"), ("wordscount")]

theorem namedField_dispatch_unknown (env : DateEnv) (uf : Bool) (fname value : String)
    (st : QState) (hv : value ≠ (""))
    (hn : jsToLower fname ∉ knownFieldNames) :
    serializeNamedField env uf fname value st =
      serializeImplicitField (.literalExpression (some (fname ++ (":") ++ value))) st := by
  simp only [serializeNamedField]
  rw [if_neg hv,
    if_neg (fun hc => hn (by rw [hc]; decide)),
    if_neg (fun hc => hn (by rw [hc]; decide)),
    if_neg (fun hc => hn (by rw [hc]; decide)),
    if_neg (fun hc => hn (by rw [hc]; decide)),
    if_neg (fun hc => hn (by rw [hc]; decide)),
    if_neg (fun hc => hn (by rw [hc]; decide)),
    if_neg (by rintro (hc | hc | hc | hc) <;> exact hn (by rw [hc]; decide)),
    if_neg (by rintro (hc | hc | hc) <;> exact hn (by rw [hc]; decide)),
    if_neg (by rintro (hc | hc | hc | hc | hc) <;> exact hn (by rw [hc]; decide)),
    if_neg (fun hc => hn (by rw [hc]; decide)),
    if_neg (fun hc => hn (by rw [hc]; decide)),
    if_neg (fun hc => hn (by rw [hc]; decide)),
    if_neg (by rintro (hc | hc | hc) <;> exact hn (by rw [hc]; decide)),
    if_neg (by rintro (hc | hc) <;> exact hn (by rw [hc]; decide))]

/-- C7: an implicit free-text tag with a non-empty literal binds the
literal as one parameter, adds exactly one select column computing a
relevance rank against it, adds a descending sort on that rank, and
returns the full-text match clause; a named tag whose lower-cased
field name is not in the dispatch table never errors and compiles
exactly as an implicit free-text tag whose literal is
`<field>:<value>`. -/
theorem implicit_and_unknown_field (env : DateEnv) (uf : Bool) (fname value : String)
    (st : QState) (hv : value ≠ (""))
    (hn : jsToLower fname ∉ knownFieldNames) :
    (serializeImplicitField (.literalExpression (some value)) st =
      .ok (some (("websearch_to_tsquery(\x27english\x27, :") ++
            mkName ("implicit_field") st.parameters.length ++
            (") @@ library_item.search_tsv")),
        pushParam
          (pushOrder
            (pushSelect st
              ⟨("ts_rank_cd(library_item.search_tsv, websearch_to_tsquery(\x27english\x27, :") ++
                  mkName ("implicit_field") st.parameters.length ++ ("))"),
                some (mkName ("rank") st.parameters.length)⟩)
            ⟨mkName ("rank") st.parameters.length, some SortOrder.descending, none⟩)
          [(mkName ("implicit_field") st.parameters.length, QValue.vstr value)])) ∧
    (serializeTagExpression env uf (.tag (.namedField fname)
        (.literalExpression (some value))) st =
      serializeImplicitField (.literalExpression (some (fname ++ (":") ++ value))) st) ∧
    (∀ e, serializeTagExpression env uf (.tag (.namedField fname)
        (.literalExpression (some value))) st ≠ .error e) := by
  have hcolon : fname ++ (":") ++ value ≠ ("") := by
    intro hc
    have := congrArg String.data hc
    rw [data_append, data_append] at this
    rcases List.append_eq_nil.mp this with ⟨h1, _⟩
    rcases List.append_eq_nil.mp h1 with ⟨_, h2⟩
    exact List.noConfusion h2
  have hbr : serializeTagExpression env uf (.tag (.namedField fname)
      (.literalExpression (some value))) st =
      serializeImplicitField (.literalExpression (some (fname ++ (":") ++ value))) st := by
    rw [show serializeTagExpression env uf (.tag (.namedField fname)
        (.literalExpression (some value))) st = serializeNamedField env uf fname value st
      from rfl]
    exact namedField_dispatch_unknown env uf fname value st hv hn
  have himp : ∀ (v : String), v ≠ ("") →
      serializeImplicitField (.literalExpression (some v)) st =
        .ok (some (("websearch_to_tsquery(\x27english\x27, :") ++
              mkName ("implicit_field") st.parameters.length ++
              (") @@ library_item.search_tsv")),
          pushParam
            (pushOrder
              (pushSelect st
                ⟨("ts_rank_cd(library_item.search_tsv, websearch_to_tsquery(\x27english\x27, :") ++
                    mkName ("implicit_field") st.parameters.length ++ ("))"),
                  some (mkName ("rank") st.parameters.length)⟩)
              ⟨mkName ("rank") st.parameters.length, some SortOrder.descending, none⟩)
            [(mkName ("implicit_field") st.parameters.length, QValue.vstr v)]) := by
    intro v hvne
    rw [show serializeImplicitField (.literalExpression (some v)) st =
        (if v = ("") then .ok (none, st)
         else .ok (some (("websearch_to_tsquery(\x27english\x27, :") ++
              mkName ("implicit_field") st.parameters.length ++
              (") @@ library_item.search_tsv")),
          pushParam
            (pushOrder
              (pushSelect st
                ⟨("ts_rank_cd(library_item.search_tsv, websearch_to_tsquery(\x27english\x27, :") ++
                    mkName ("implicit_field") st.parameters.length ++ ("))"),
                  some (mkName ("rank") st.parameters.length)⟩)
              ⟨mkName ("rank") st.parameters.length, some SortOrder.descending, none⟩)
            [(mkName ("implicit_field") st.parameters.length, QValue.vstr v)])) from rfl]
    rw [if_neg hvne]
  refine ⟨himp value hv, hbr, ?_⟩
  intro e hc
  rw [hbr, himp (fname ++ (":") ++ value) hcolon] at hc
  exact Except.noConfusion hc

/-- Witness for C7: `bogus:value` compiles as a free-text search for
the literal string `bogus:value`, with one bound parameter, one rank
select column, and one descending rank sort. -/
theorem implicit_and_unknown_field_witness :
    serializeTagExpression dateEnv0 false (.tag (.namedField ("bogus"))
        (.literalExpression (some ("value")))) ⟨[], [], []⟩ =
      .ok (some ("websearch_to_tsquery(\x27english\x27, :implicit_field_0) @@ library_item.search_tsv"),
        ⟨[[(("implicit_field_0"), QValue.vstr ("bogus:value"))]],
         [⟨("ts_rank_cd(library_item.search_tsv, websearch_to_tsquery(\x27english\x27, :implicit_field_0))"),
           some ("rank_0")⟩],
         [⟨("rank_0"), some SortOrder.descending, none⟩]⟩) := by
  have h2 := (implicit_and_unknown_field dateEnv0 false ("bogus") ("value") ⟨[], [], []⟩
    (by decide) (by decide)).2.1
  rw [h2]
  have h1 := (implicit_and_unknown_field dateEnv0 false ("bogus") ("bogus:value") ⟨[], [], []⟩
    (by decide) (by decide)).1
  exact h1

theorem jsToLower_eq_empty_iff (s : String) : jsToLower s = ("") ↔ s = ("") := by
  constructor
  · intro h
    have hd := congrArg String.data h
    rw [jsToLower_data] at hd
    have hnil : s.data = [] := List.map_eq_nil_iff.mp hd
    cases s
    simp_all
  · intro h
    subst h
    rfl

theorem falsy_find_iff (names : List String) (name : String) :
    jsFalsy (names.find? (fun l => jsToLower l == jsToLower name)) = true ↔
      (name = ("") ∨ ∀ l ∈ names, jsToLower l ≠ jsToLower name) := by
  cases hf : names.find? (fun l => jsToLower l == jsToLower name) with
  | none =>
    simp only [jsFalsy]
    constructor
    · intro _
      right
      intro l hl hc
      exact List.find?_eq_none.mp hf l hl (beq_iff_eq.mpr hc)
    · intro _
      trivial
  | some l =>
    have hpred := List.find?_some hf
    have hmem := List.mem_of_find?_eq_some hf
    rw [beq_iff_eq] at hpred
    simp only [jsFalsy, beq_iff_eq]
    constructor
    · intro hl0
      subst hl0
      left
      have hname : jsToLower name = ("") := by
        rw [← hpred]
        rfl
      exact (jsToLower_eq_empty_iff name).mp hname
    · rintro (h | h)
      · subst h
        rw [show jsToLower ("") = ("") from rfl] at hpred
        exact (jsToLower_eq_empty_iff l).mp hpred
      · exact absurd hpred (h l hmem)

/-- C8 (amended): the AddLabels batch compiler schedules an
association insert for a matching item and a requested label exactly
when the requested label name is empty or no existing label name on
the item equals it case-insensitively. The filter keeps the insert
when the case-insensitive lookup is JS-falsy, i.e. finds nothing or
finds the empty string, and a found name can only be empty when the
requested name is empty. Consequently, re-running the same AddLabels
action over the same already-labeled items schedules no inserts
provided every requested label has a non-empty name; an empty-named
label is re-inserted on every run. -/
theorem add_labels_idempotent_merge (libraryItems : List LibraryItemRec)
    (labels : List Label) :
    (∀ e, e ∈ labelsToAdd libraryItems labels ↔
      ∃ libraryItem ∈ libraryItems, ∃ label ∈ labels,
        e = EntityLabel.mk label.id libraryItem.id label.name ∧
        (label.name = ("") ∨
         ∀ l ∈ libraryItem.labelNames.getD [], jsToLower l ≠ jsToLower label.name)) ∧
    ((∀ label ∈ labels, label.name ≠ ("")) →
     (∀ libraryItem ∈ libraryItems, ∀ label ∈ labels,
        ∃ l ∈ libraryItem.labelNames.getD [], jsToLower l = jsToLower label.name) →
      labelsToAdd libraryItems labels = []) := by
  have hmem : ∀ e, e ∈ labelsToAdd libraryItems labels ↔
      ∃ libraryItem ∈ libraryItems, ∃ label ∈ labels,
        e = EntityLabel.mk label.id libraryItem.id label.name ∧
        (label.name = ("") ∨
         ∀ l ∈ libraryItem.labelNames.getD [], jsToLower l ≠ jsToLower label.name) := by
    intro e
    simp only [labelsToAdd, List.mem_flatMap, List.mem_filter, List.mem_map]
    constructor
    · rintro ⟨item, hitem, ⟨⟨label, hlabel, rfl⟩, hfilter⟩⟩
      exact ⟨item, hitem, label, hlabel, rfl, (falsy_find_iff _ _).mp hfilter⟩
    · rintro ⟨item, hitem, label, hlabel, rfl, hcond⟩
      exact ⟨item, hitem, ⟨⟨label, hlabel, rfl⟩, (falsy_find_iff _ _).mpr hcond⟩⟩
  refine ⟨hmem, ?_⟩
  intro hne hcov
  rw [List.eq_nil_iff_forall_not_mem]
  intro e he
  obtain ⟨item, hitem, label, hlabel, _, hcond⟩ := (hmem e).mp he
  rcases hcond with h0 | hno
  · exact hne label hlabel h0
  · obtain ⟨l, hl, heq⟩ := hcov item hitem label hlabel
    exact hno l hl heq

/-- C8 counterexample: a requested label with the empty name is
scheduled for insertion even though the item already carries an
existing label name equal to it case-insensitively (the JS falsiness
test treats the found empty string like undefined), so scheduling is
not governed exactly by case-insensitive name equality and a re-run
over the already-labeled item schedules the same insert again. -/
theorem add_labels_empty_name_cex :
    labelsToAdd [⟨("i1"), some [("")]⟩] [⟨("l1"), ("")⟩] = [⟨("l1"), ("i1"), ("")⟩] ∧
    labelsToAdd [⟨("i1"), some [("")]⟩] [⟨("l1"), ("")⟩] ≠ [] :=
  ⟨rfl, by decide⟩

/-- Witness for C8: re-running AddLabels of the non-empty-named label
`tech` over an item that already carries `Tech` schedules no
inserts. -/
theorem add_labels_idempotent_merge_witness :
    labelsToAdd [⟨("i1"), some [("Tech")]⟩] [⟨("l1"), ("tech")⟩] = [] :=
  (add_labels_idempotent_merge [⟨("i1"), some [("Tech")]⟩] [⟨("l1"), ("tech")⟩]).2
    (by decide) (by decide)

end Omnivore
